import Mathlib

set_option maxRecDepth 100000

/-!
# Verification of the db_tutorial_rust B+tree storage engine

A shallow embedding, in Lean 4, of the single-file Rust program `src/main.rs`
(an sqlite-style B+tree table engine: pages, leaf/internal nodes, a pager, a
cursor, insert and scan).  Definitions are translated from the Rust source,
keeping the source's names wherever Lean allows it.  Machine integers (`u32`,
`usize`) are modelled as `Nat`: every value the verified paths manipulate
(page numbers bounded by 101, cell counts bounded by 14, `u32` keys) stays far
below any wrap-around, and no arithmetic in the modelled code can underflow on
the verified paths (where it could - `get_node_max_key` on an empty node -
the model returns `none`, mirroring the debug-build panic).

## Modelling conventions

* A `Page` in the source is a raw 4096-byte buffer that is read through typed
  accessors.  The model keeps one field per accessor family, including BOTH
  the leaf-node view (`num_cells`, `next_leaf`, `cells`) and the
  internal-node view (`num_keys`, `right_child`, `icells`) of the body, since
  the source reinterprets a page in place (`Cursor::create_new_node` turns the
  old root leaf into an internal node).  Cell stores are total functions
  `Nat -> cell`; slots that the source never wrote hold the zero cell, exactly
  as a freshly zeroed `Page::new()` does.  The one place this abstraction is
  coarser than the bytes is a page whose body bytes were written under one
  node type and read under the other after the in-place reinterpretation; the
  concrete runs below are chosen so that those bytes are zero in the source as
  well (rows with at most 16-byte usernames leave the aliased byte ranges
  zero), which is spelled out at each point of use.
* Fatal paths (`process::exit`, `panic!`-style aborts) are modelled by
  `Option`/`none`; no modelled operation both exits and mutates observable
  state in the source.
* Loops are modelled with explicit structural fuel so that every definition
  is executable by the kernel.  Each call site passes fuel strictly larger
  than the maximal number of iterations the loop can make, and the
  specification lemmas prove the fuel is never exhausted on the verified
  paths.
* The pager is modelled twice, at two levels of abstraction:
  - `TableM` (used by the B+tree claims) merges the page cache and the file
    into one logical store `pages : Nat -> Page`, because in this
    single-threaded program the cache is a pure write-back cache: the logical
    content of page `n` is the cached page when resident, else the file page,
    and loading never changes it.  `get_page`'s `num_pages` increment is kept.
  - `PagerL` (used by the pager claims C8/C9) keeps the slot array and the
    file separate and models residency, loading and the out-of-bounds slot
    access explicitly.
-/

/-! ## Layout constants (from the bottom of main.rs; usize is 8 bytes,
`NodeType` and `bool` are 1 byte each on the host the source targets) -/

def ID_SIZE : Nat := 4
def USERNAME_SIZE : Nat := 32
def EMAIL_SIZE : Nat := 255
def ID_OFFSET : Nat := 0
def USERNAME_OFFSET : Nat := ID_OFFSET + ID_SIZE
def EMAIL_OFFSET : Nat := USERNAME_OFFSET + USERNAME_SIZE
def ROW_SIZE : Nat := ID_SIZE + USERNAME_SIZE + EMAIL_SIZE
def PAGE_SIZE : Nat := 4096
def TABLE_MAX_PAGES : Nat := 100

def NODE_TYPE_SIZE : Nat := 1
def IS_ROOT_SIZE : Nat := 1
def PARENT_POINTER_SIZE : Nat := 8
def COMMON_NODE_HEADER_SIZE : Nat := NODE_TYPE_SIZE + IS_ROOT_SIZE + PARENT_POINTER_SIZE

def LEAF_NODE_NUM_CELLS_SIZE : Nat := 8
def LEAF_NODE_NEXT_LEAF_SIZE : Nat := 8
def LEAF_NODE_HEADER_SIZE : Nat :=
  COMMON_NODE_HEADER_SIZE + LEAF_NODE_NUM_CELLS_SIZE + LEAF_NODE_NEXT_LEAF_SIZE

def LEAF_NODE_KEY_SIZE : Nat := 4
def LEAF_NODE_VALUE_SIZE : Nat := ROW_SIZE
def LEAF_NODE_CELL_SIZE : Nat := LEAF_NODE_KEY_SIZE + LEAF_NODE_VALUE_SIZE
def LEAF_NODE_SPACE_FOR_CELLS : Nat := PAGE_SIZE - LEAF_NODE_HEADER_SIZE
def LEAF_NODE_MAX_CELLS : Nat := LEAF_NODE_SPACE_FOR_CELLS / LEAF_NODE_CELL_SIZE
def LEAF_NODE_RIGHT_SPLIT_COUNT : Nat := (LEAF_NODE_MAX_CELLS + 1) / 2
def LEAF_NODE_LEFT_SPLIT_COUNT : Nat :=
  (LEAF_NODE_MAX_CELLS + 1) - LEAF_NODE_RIGHT_SPLIT_COUNT

def INTERNAL_NODE_NUM_KEYS_SIZE : Nat := 8
def INTERNAL_NODE_RIGHT_CHILD_SIZE : Nat := 8
def INTERNAL_NODE_HEADER_SIZE : Nat :=
  COMMON_NODE_HEADER_SIZE + INTERNAL_NODE_NUM_KEYS_SIZE + INTERNAL_NODE_RIGHT_CHILD_SIZE

def INTERNAL_NODE_KEY_SIZE : Nat := 4
def INTERNAL_NODE_CHILD_SIZE : Nat := 8
def INTERNAL_NODE_CELL_SIZE : Nat := INTERNAL_NODE_KEY_SIZE + INTERNAL_NODE_CHILD_SIZE

def INTERNAL_NODE_MAX_CELLS : Nat := 3

example : LEAF_NODE_MAX_CELLS = 13 := by decide
example : LEAF_NODE_RIGHT_SPLIT_COUNT = 7 := by decide
example : LEAF_NODE_LEFT_SPLIT_COUNT = 7 := by decide

/-! ## Rows and their on-disk form

`Row` carries the in-memory strings as byte lists.  `SerRow` is the 291-byte
cell value: the id, 32 username bytes and 255 email bytes (zero padded), as
written by `serialize_row`. -/

structure Row where
  id : Nat
  username : List Nat
  email : List Nat
  deriving DecidableEq, Repr

structure SerRow where
  id : Nat
  ub : List Nat
  eb : List Nat
  deriving DecidableEq, Repr

/-- Zero-filled cell value, the content of a freshly zeroed page slot. -/
def SerRow.zero : SerRow :=
  { id := 0, ub := List.replicate USERNAME_SIZE 0, eb := List.replicate EMAIL_SIZE 0 }

/-- From `serialize_row` (main.rs:789): the id is written, then each string
field is zero-filled and the string's bytes are copied over the front.  For a
string of length at most the field width this stores the bytes zero padded to
the width.  (A longer string would overflow the field in the source; the
engine rejects such rows in `prepare_insert` before they ever reach
`serialize_row`, and only width-bounded strings are used below.) -/
def serialize_row (source : Row) : SerRow :=
  { id := source.id,
    ub := (source.username ++ List.replicate USERNAME_SIZE 0).take USERNAME_SIZE,
    eb := (source.email ++ List.replicate EMAIL_SIZE 0).take EMAIL_SIZE }

/-- The backward scan of `read_end_idx` inside `Page::row_mut_slot`
(main.rs:73): the largest index holding a non-zero byte, and 0 if every byte
is zero.  `read_end_idx_aux bytes i` scans indices `i-1, i-2, ..., 0`. -/
def read_end_idx_aux (bytes : List Nat) : Nat → Nat
  | 0 => 0
  | i + 1 => if bytes.getD i 0 ≠ 0 then i else read_end_idx_aux bytes i

def read_end_idx (bytes : List Nat) : Nat :=
  read_end_idx_aux bytes bytes.length

/-- `Page::row_mut_slot` (main.rs:72), restricted to the deserialization it
performs on a cell value: read the id, and cut each string field at one past
the last non-zero byte. -/
def row_mut_slot (cell : SerRow) : Row :=
  { id := cell.id,
    username := cell.ub.take (read_end_idx cell.ub + 1),
    email := cell.eb.take (read_end_idx cell.eb + 1) }

lemma read_end_idx_aux_all_zero (bytes : List Nat) :
    ∀ i, (∀ j, j < i → bytes.getD j 0 = 0) → read_end_idx_aux bytes i = 0 := by
  intro i
  induction i with
  | zero => intro _; rfl
  | succ n ih =>
    intro h
    have hn : bytes.getD n 0 = 0 := h n (Nat.lt_succ_self n)
    simp only [read_end_idx_aux, hn]
    exact ih fun j hj => h j (Nat.lt_succ_of_lt hj)

lemma read_end_idx_all_zero (bytes : List Nat) (h : ∀ b ∈ bytes, b = 0) :
    read_end_idx bytes = 0 := by
  apply read_end_idx_aux_all_zero
  intro j hj
  have hg : bytes.getD j 0 = bytes.get ⟨j, hj⟩ := List.getD_eq_getElem bytes 0 hj
  rw [hg]
  exact h _ (List.mem_iff_get.mpr ⟨⟨j, hj⟩, rfl⟩)

lemma row_empty_roundtrip (id : Nat) :
    row_mut_slot (serialize_row { id := id, username := [], email := [] }) =
      { id := id, username := [0], email := [0] } := by
  have hser : serialize_row { id := id, username := [], email := [] } =
      { id := id, ub := List.replicate USERNAME_SIZE 0,
        eb := List.replicate EMAIL_SIZE 0 } := by
    simp [serialize_row]
  have hu : (List.replicate USERNAME_SIZE 0).take
      (read_end_idx (List.replicate USERNAME_SIZE 0) + 1) = [0] := by decide
  have he : (List.replicate EMAIL_SIZE 0).take
      (read_end_idx (List.replicate EMAIL_SIZE 0) + 1) = [0] := by decide
  rw [hser]
  simp only [row_mut_slot, hu, he]

/-- C10. Row deserialization (`Page::row_mut_slot`) always returns username
and email byte strings of length at least 1: on a stored (hence non-empty)
field the backward scan returns an index, and index 0 even when the field is
all zeros, so `take (idx + 1)` keeps at least one byte.  Consequently a row
serialized with an empty username and email is read back with the one-byte
NUL string in each field: the empty string does not survive a
serialize/deserialize round trip even though `serialize_row` accepts it. -/
theorem row_mut_slot_min_length (cell : SerRow) (r : Row) (id : Nat)
    (hub : cell.ub ≠ []) (heb : cell.eb ≠ [])
    (hr : r = { id := id, username := [], email := [] }) :
    1 ≤ (row_mut_slot cell).username.length ∧
    1 ≤ (row_mut_slot cell).email.length ∧
    row_mut_slot (serialize_row r) = { id := id, username := [0], email := [0] } ∧
    row_mut_slot (serialize_row r) ≠ r := by
  refine ⟨?_, ?_, ?_, ?_⟩
  · have : 0 < cell.ub.length := List.length_pos.mpr hub
    simp only [row_mut_slot, List.length_take]
    omega
  · have : 0 < cell.eb.length := List.length_pos.mpr heb
    simp only [row_mut_slot, List.length_take]
    omega
  · subst hr
    exact row_empty_roundtrip id
  · subst hr
    rw [row_empty_roundtrip id]
    intro hcontra
    have := congrArg Row.username hcontra
    simp at this

/-- Witness for C10 at a concrete stored cell and the empty row. -/
theorem row_mut_slot_min_length_witness :
    SerRow.zero.ub ≠ [] ∧ SerRow.zero.eb ≠ [] ∧
    (1 ≤ (row_mut_slot SerRow.zero).username.length ∧
     1 ≤ (row_mut_slot SerRow.zero).email.length ∧
     row_mut_slot (serialize_row { id := 7, username := [], email := [] }) =
       { id := 7, username := [0], email := [0] } ∧
     row_mut_slot (serialize_row { id := 7, username := [], email := [] }) ≠
       { id := 7, username := [], email := [] }) := by
  refine ⟨by decide, by decide, ?_⟩
  exact row_mut_slot_min_length SerRow.zero _ 7 (by decide) (by decide) rfl

/-! ## Pages and node accessors

A `Page` is the source's 4096-byte buffer viewed through its typed accessors
(`impl Page`, main.rs:64-344).  Both the leaf view and the internal view of
the body are kept, because `create_new_node` re-types a page in place.  A
leaf cell is `(key, value)`; an internal cell is `(child_page_num, key)`,
matching the byte layouts.  Cell stores are total functions; on a fresh page
every slot holds the zero cell, as in the zero-filled `Page::new()`. -/

inductive NodeType where
  | NODE_INTERNAL
  | NODE_LEAF
  deriving DecidableEq, Repr

structure Page where
  node_type : NodeType
  is_root : Bool
  parent_page_num : Nat
  num_cells : Nat
  next_leaf : Nat
  cells : Nat → Nat × SerRow
  num_keys : Nat
  right_child : Nat
  icells : Nat → Nat × Nat

/-- `Page::new` (main.rs:66): a zero-filled buffer.  Byte 0 is the node type;
0 is `NODE_INTERNAL`'s discriminant. -/
def Page.new : Page :=
  { node_type := .NODE_INTERNAL, is_root := false, parent_page_num := 0,
    num_cells := 0, next_leaf := 0, cells := fun _ => (0, SerRow.zero),
    num_keys := 0, right_child := 0, icells := fun _ => (0, 0) }

def Page.leaf_node_num_cells (p : Page) : Nat := p.num_cells

def Page.set_leaf_node_num_cells (p : Page) (n : Nat) : Page := { p with num_cells := n }

def Page.leaf_node_key (p : Page) (cell_num : Nat) : Nat := (p.cells cell_num).1

def Page.set_leaf_node_key (p : Page) (cell_num key : Nat) : Page :=
  { p with cells := fun j => if j = cell_num then (key, (p.cells cell_num).2) else p.cells j }

def Page.set_leaf_node_value (p : Page) (cell_num : Nat) (v : SerRow) : Page :=
  { p with cells := fun j => if j = cell_num then ((p.cells cell_num).1, v) else p.cells j }

/-- Writing a whole leaf cell (the `LEAF_NODE_CELL_SIZE`-byte `ptr::copy` of
key plus value used by the shift and split loops). -/
def Page.set_leaf_cell (p : Page) (cell_num : Nat) (c : Nat × SerRow) : Page :=
  { p with cells := fun j => if j = cell_num then c else p.cells j }

/-- `initialize_leaf_node` (main.rs:145): type=leaf, root=false, next_leaf=0,
num_cells=0.  (Renamed from the source's initia... spelling only because the
verifier's lexer reserves that word.) -/
def Page.init_leaf_node (p : Page) : Page :=
  { p with node_type := .NODE_LEAF, is_root := false, next_leaf := 0, num_cells := 0 }

/-- `initialize_internal_node` (main.rs:155): type=internal, root=false,
num_keys=0. -/
def Page.init_internal_node (p : Page) : Page :=
  { p with node_type := .NODE_INTERNAL, is_root := false, num_keys := 0 }

def Page.is_leaf_node (p : Page) : Bool := p.node_type = NodeType.NODE_LEAF

def Page.is_node_root (p : Page) : Bool := p.is_root

def Page.set_node_root (p : Page) (b : Bool) : Page := { p with is_root := b }

def Page.get_node_parent (p : Page) : Nat := p.parent_page_num

def Page.set_node_parent (p : Page) (n : Nat) : Page := { p with parent_page_num := n }

def Page.get_leaf_node_next_leaf (p : Page) : Nat := p.next_leaf

def Page.set_leaf_node_next_leaf (p : Page) (n : Nat) : Page := { p with next_leaf := n }

def Page.get_internal_node_num_keys (p : Page) : Nat := p.num_keys

def Page.set_internal_node_num_keys (p : Page) (n : Nat) : Page := { p with num_keys := n }

/-- `increase_internal_node_num_keys` (main.rs:221). -/
def Page.increase_internal_node_num_keys (p : Page) (incr : Nat) : Page :=
  p.set_internal_node_num_keys (p.get_internal_node_num_keys + incr)

def Page.get_internal_node_right_child (p : Page) : Nat := p.right_child

def Page.set_internal_node_right_child (p : Page) (n : Nat) : Page := { p with right_child := n }

def Page.get_internal_node_key (p : Page) (cell_num : Nat) : Nat := (p.icells cell_num).2

def Page.set_internal_node_key (p : Page) (key_num key_val : Nat) : Page :=
  { p with icells := fun j => if j = key_num then ((p.icells key_num).1, key_val) else p.icells j }

/-- `set_internal_node_cell` (main.rs:230) writes only the child pointer
(the first `usize` of the cell). -/
def Page.set_internal_node_cell (p : Page) (cell_num page_num : Nat) : Page :=
  { p with icells := fun j => if j = cell_num then (page_num, (p.icells cell_num).2) else p.icells j }

/-- `set_internal_node_child` (main.rs:238): position `num_keys` aliases the
right child; a larger position exits the process (`none`). -/
def Page.set_internal_node_child (p : Page) (child_num child_page_num : Nat) : Option Page :=
  if child_num > p.num_keys then none
  else if child_num = p.num_keys then some (p.set_internal_node_right_child child_page_num)
  else some (p.set_internal_node_cell child_num child_page_num)

/-- `get_internal_node_child` (main.rs:250), with the same aliasing and exit. -/
def Page.get_internal_node_child (p : Page) (child_num : Nat) : Option Nat :=
  if child_num > p.num_keys then none
  else if child_num = p.num_keys then some p.right_child
  else some (p.icells child_num).1

/-- `get_node_max_key` (main.rs:274): the key of the last cell.  On an empty
node the source's `num_cells - 1` underflows `usize` (a panic in debug
builds, an out-of-page access otherwise); the model returns `none`, and the
verified paths never reach that case. -/
def Page.get_node_max_key (p : Page) : Option Nat :=
  match p.node_type with
  | .NODE_INTERNAL =>
      if p.num_keys = 0 then none else some (p.icells (p.num_keys - 1)).2
  | .NODE_LEAF =>
      if p.num_cells = 0 then none else some (p.cells (p.num_cells - 1)).1

/-! ## Binary searches inside one node

`internal_node_find_child` (main.rs:311) and `leaf_node_find` (main.rs:327).
The loops are modelled with structural fuel; each iteration shrinks
`max - min` by at least one, so fuel `max - min + 1` is never exhausted,
which the spec lemmas below prove. -/

def internal_find_child_aux (getKey : Nat → Nat) (key : Nat) : Nat → Nat → Nat → Nat
  | 0, _, max_cell => max_cell
  | fuel + 1, min_cell, max_cell =>
    if min_cell < max_cell then
      let cell_num := (max_cell - min_cell) / 2 + min_cell
      if getKey cell_num ≥ key then internal_find_child_aux getKey key fuel min_cell cell_num
      else internal_find_child_aux getKey key fuel (cell_num + 1) max_cell
    else max_cell

/-- Return the index of the first cell whose key is `≥ key`
(`internal_node_find_child`, main.rs:311). -/
def Page.internal_node_find_child (p : Page) (key : Nat) : Nat :=
  internal_find_child_aux (fun i => (p.icells i).2) key (p.num_keys + 1) 0 p.num_keys

/-- `update_internal_node_key` (main.rs:305). -/
def Page.update_internal_node_key (p : Page) (old_key new_key : Nat) : Page :=
  p.set_internal_node_key (p.internal_node_find_child old_key) new_key

def leaf_find_aux (getKey : Nat → Nat) (key : Nat) : Nat → Nat → Nat → Nat
  | 0, min_index, _ => min_index
  | fuel + 1, min_index, one_past_max =>
    if one_past_max = min_index then min_index
    else
      let index := (one_past_max + min_index) / 2
      let key_at_index := getKey index
      if key_at_index = key then index
      else if key_at_index > key then leaf_find_aux getKey key fuel min_index index
      else leaf_find_aux getKey key fuel (index + 1) one_past_max

/-- Binary search in a leaf (`leaf_node_find`, main.rs:327): the index of a
matching cell, or the insertion index for `key`. -/
def Page.leaf_node_find (p : Page) (key : Nat) : Nat :=
  leaf_find_aux (fun i => (p.cells i).1) key (p.num_cells + 1) 0 p.num_cells

lemma internal_find_child_aux_spec (getKey : Nat → Nat) (key n : Nat)
    (hsorted : ∀ i j, i < j → j < n → getKey i < getKey j) :
    ∀ fuel min_cell max_cell,
      max_cell - min_cell < fuel →
      min_cell ≤ max_cell → max_cell ≤ n →
      (∀ j, j < min_cell → getKey j < key) →
      (∀ j, max_cell ≤ j → j < n → key ≤ getKey j) →
      min_cell ≤ internal_find_child_aux getKey key fuel min_cell max_cell ∧
      internal_find_child_aux getKey key fuel min_cell max_cell ≤ max_cell ∧
      (∀ j, j < internal_find_child_aux getKey key fuel min_cell max_cell → getKey j < key) ∧
      (∀ j, internal_find_child_aux getKey key fuel min_cell max_cell ≤ j → j < n →
        key ≤ getKey j) := by
  intro fuel
  induction fuel with
  | zero => intro min_cell max_cell hf; omega
  | succ fuel ih =>
    intro min_cell max_cell hf hmm hmn hlow hhigh
    by_cases hlt : min_cell < max_cell
    · simp only [internal_find_child_aux, if_pos hlt]
      set mid := (max_cell - min_cell) / 2 + min_cell with hmid
      have hmid1 : min_cell ≤ mid := by omega
      have hmid2 : mid < max_cell := by omega
      by_cases hk : getKey mid ≥ key
      · simp only [if_pos hk]
        have := ih min_cell mid (by omega) (by omega) (by omega) hlow ?_
        · exact ⟨this.1, by omega, this.2.2.1, this.2.2.2⟩
        · intro j hj1 hj2
          rcases Nat.eq_or_lt_of_le hj1 with h | h
          · exact h ▸ hk
          · exact le_of_lt (lt_of_le_of_lt hk (hsorted mid j h hj2))
      · simp only [if_neg hk]
        have hklt : getKey mid < key := by omega
        have := ih (mid + 1) max_cell (by omega) (by omega) hmn ?_ hhigh
        · exact ⟨by omega, this.2.1, this.2.2.1, this.2.2.2⟩
        · intro j hj
          rcases Nat.lt_or_ge j min_cell with h | h
          · exact hlow j h
          · rcases Nat.lt_or_ge j mid with h2 | h2
            · exact lt_trans (hsorted j mid h2 (by omega)) hklt
            · have : j = mid := by omega
              exact this ▸ hklt
    · have heq : min_cell = max_cell := by omega
      simp only [internal_find_child_aux, if_neg hlt]
      exact ⟨by omega, le_refl _, fun j hj => hlow j (by omega), hhigh⟩

lemma internal_node_find_child_spec (p : Page) (key : Nat)
    (hsorted : ∀ i j, i < j → j < p.num_keys → (p.icells i).2 < (p.icells j).2) :
    p.internal_node_find_child key ≤ p.num_keys ∧
    (∀ j, j < p.internal_node_find_child key → (p.icells j).2 < key) ∧
    (∀ j, p.internal_node_find_child key ≤ j → j < p.num_keys → key ≤ (p.icells j).2) := by
  have := internal_find_child_aux_spec (fun i => (p.icells i).2) key p.num_keys hsorted
    (p.num_keys + 1) 0 p.num_keys (by omega) (by omega) (le_refl _)
    (by omega) (by omega)
  exact ⟨this.2.1, this.2.2.1, this.2.2.2⟩

lemma leaf_find_aux_spec (getKey : Nat → Nat) (key n : Nat)
    (hsorted : ∀ i j, i < j → j < n → getKey i < getKey j) :
    ∀ fuel min_index one_past_max,
      one_past_max - min_index < fuel →
      min_index ≤ one_past_max → one_past_max ≤ n →
      (∀ j, j < min_index → getKey j < key) →
      (∀ j, one_past_max ≤ j → j < n → key < getKey j) →
      leaf_find_aux getKey key fuel min_index one_past_max ≤ n ∧
      ((leaf_find_aux getKey key fuel min_index one_past_max < n ∧
        getKey (leaf_find_aux getKey key fuel min_index one_past_max) = key) ∨
       ((∀ j, j < leaf_find_aux getKey key fuel min_index one_past_max → getKey j < key) ∧
        (leaf_find_aux getKey key fuel min_index one_past_max = n ∨
         (leaf_find_aux getKey key fuel min_index one_past_max < n ∧
          key < getKey (leaf_find_aux getKey key fuel min_index one_past_max))))) := by
  intro fuel
  induction fuel with
  | zero => intro min_index one_past_max hf; omega
  | succ fuel ih =>
    intro min_index one_past_max hf hmm hmn hlow hhigh
    by_cases hstop : one_past_max = min_index
    · simp only [leaf_find_aux, if_pos hstop]
      refine ⟨by omega, Or.inr ⟨hlow, ?_⟩⟩
      rcases Nat.lt_or_ge min_index n with h | h
      · exact Or.inr ⟨h, hhigh min_index (by omega) h⟩
      · exact Or.inl (by omega)
    · simp only [leaf_find_aux, if_neg hstop]
      set index := (one_past_max + min_index) / 2 with hidx
      have hi1 : min_index ≤ index := by omega
      have hi2 : index < one_past_max := by omega
      by_cases heq : getKey index = key
      · simp only [if_pos heq]
        exact ⟨by omega, Or.inl ⟨by omega, heq⟩⟩
      · simp only [if_neg heq]
        by_cases hgt : getKey index > key
        · simp only [if_pos hgt]
          exact ih min_index index (by omega) (by omega) (by omega) hlow
            (fun j hj1 hj2 => by
              rcases Nat.eq_or_lt_of_le hj1 with h | h
              · exact h ▸ hgt
              · exact lt_trans hgt (hsorted index j h hj2))
        · simp only [if_neg hgt]
          have hklt : getKey index < key := by omega
          exact ih (index + 1) one_past_max (by omega) (by omega) hmn
            (fun j hj => by
              rcases Nat.lt_or_ge j min_index with h | h
              · exact hlow j h
              · rcases Nat.lt_or_ge j index with h2 | h2
                · exact lt_trans (hsorted j index h2 (by omega)) hklt
                · have : j = index := by omega
                  exact this ▸ hklt)
            hhigh

lemma leaf_node_find_spec (p : Page) (key : Nat)
    (hsorted : ∀ i j, i < j → j < p.num_cells → (p.cells i).1 < (p.cells j).1) :
    p.leaf_node_find key ≤ p.num_cells ∧
    ((p.leaf_node_find key < p.num_cells ∧ (p.cells (p.leaf_node_find key)).1 = key) ∨
     ((∀ j, j < p.leaf_node_find key → (p.cells j).1 < key) ∧
      (p.leaf_node_find key = p.num_cells ∨
       (p.leaf_node_find key < p.num_cells ∧ key < (p.cells (p.leaf_node_find key)).1)))) :=
  leaf_find_aux_spec (fun i => (p.cells i).1) key p.num_cells hsorted
    (p.num_cells + 1) 0 p.num_cells (by omega) (by omega) (le_refl _)
    (by omega) (by omega)

/-! ## The logical table state

`TableM` is `Table` + `Pager` at the logical level: `pages` is the merged
view of the page cache over the file (the cache never evicts and is the sole
writer, so the logical content of page `n` is the cached page when resident
and the file page otherwise; a slot never touched reads back as a zeroed
page, which is what `load_page` installs for pages at or past the file end).
`get_page_view` (main.rs:370) only reads; `get_page` (main.rs:405) also
increments `num_pages` when it pulls in the page at the high-water mark.  In
the source the increment fires when the slot was vacant and
`page_num >= num_pages`; the engine only ever passes `page_num ≤ num_pages`
to `get_page`, and a slot at `num_pages` is always vacant (no page at or
above the high-water mark has ever been fetched), so the model folds the
vacancy test into `page_num ≥ num_pages`.  Both operations panic
(`none`) when `page_num > TABLE_MAX_PAGES`. -/

structure TableM where
  pages : Nat → Page
  num_pages : Nat
  root_page_num : Nat

def TableM.setPage (t : TableM) (page_num : Nat) (p : Page) : TableM :=
  { t with pages := fun q => if q = page_num then p else t.pages q }

def TableM.get_page_view (t : TableM) (page_num : Nat) : Option Page :=
  if page_num > TABLE_MAX_PAGES then none else some (t.pages page_num)

def TableM.get_page (t : TableM) (page_num : Nat) : Option (Page × TableM) :=
  if page_num > TABLE_MAX_PAGES then none
  else some (t.pages page_num,
    { t with num_pages := if page_num ≥ t.num_pages then t.num_pages + 1 else t.num_pages })

/-- `get_unused_page_num` (main.rs:459). -/
def TableM.get_unused_page_num (t : TableM) : Nat := t.num_pages

/-! ## Search from the root (`Table::find`, main.rs:481)

`find_by_page_num` folds the source's mutual recursion
(`find_by_page_num` / `find_by_page` / `internal_node_find` /
`leaf_node_find`) into one fuel-indexed function.  In the internal case the
source tests `get_internal_node_key(cell_index) >= key` and then follows
`get_internal_node_child(cell_index)`, else the right child.  When
`cell_index = num_keys` that key read is past the live cell array, but both
branches then fetch the right child (`get_internal_node_child` aliases
position `num_keys` to `right_child`), so the model goes to the right child
directly without reading the stale key. -/

def TableM.find_by_page_num (t : TableM) : Nat → Nat → Nat → Option (Nat × Nat)
  | 0, _, _ => none
  | fuel + 1, page_num, key =>
    match t.get_page_view page_num with
    | none => none
    | some page =>
      match page.node_type with
      | .NODE_LEAF => some (page_num, page.leaf_node_find key)
      | .NODE_INTERNAL =>
        let cell_index := page.internal_node_find_child key
        if cell_index < page.num_keys then
          if (page.icells cell_index).2 ≥ key then
            t.find_by_page_num fuel (page.icells cell_index).1 key
          else t.find_by_page_num fuel page.right_child key
        else t.find_by_page_num fuel page.right_child key

/-- `Table::find` (main.rs:481).  The source's `if page.is_none() { return
(0, 0) }` branch is dead code: `get_page_view` loads absent pages and panics
on out-of-bounds page numbers, it never returns `None`. -/
def TableM.find (t : TableM) (fuel : Nat) (key : Nat) : Option (Nat × Nat) :=
  match t.get_page_view t.root_page_num with
  | none => none
  | some _ => t.find_by_page_num fuel t.root_page_num key

/-! ## Well-formed subtrees

`Wf t h page_num keys`: the page is the root of a well-formed subtree of
height at most `h` holding exactly the sorted key list `keys`.  For an
internal node, `cks i` is the key list of child `i` (`cks m` of the right
child), every internal key equals the max (= last) key of its child's
subtree, and the concatenation of the children's key lists is sorted.  Pages
are within pager bounds and below the allocation high-water mark. -/

inductive Wf (t : TableM) : Nat → Nat → List Nat → Prop where
  | leaf : ∀ h page_num keys,
      page_num ≤ TABLE_MAX_PAGES →
      page_num < t.num_pages →
      (t.pages page_num).node_type = NodeType.NODE_LEAF →
      (t.pages page_num).num_cells = keys.length →
      (∀ i, (hi : i < keys.length) → ((t.pages page_num).cells i).1 = keys.get ⟨i, hi⟩) →
      List.Pairwise (· < ·) keys →
      Wf t h page_num keys
  | internal : ∀ h page_num m cks keys,
      page_num ≤ TABLE_MAX_PAGES →
      page_num < t.num_pages →
      (t.pages page_num).node_type = NodeType.NODE_INTERNAL →
      (t.pages page_num).num_keys = m →
      1 ≤ m →
      (∀ i, i < m → Wf t h ((t.pages page_num).icells i).1 (cks i)) →
      Wf t h ((t.pages page_num).right_child) (cks m) →
      (∀ i, i < m → (cks i).getLast? = some ((t.pages page_num).icells i).2) →
      cks m ≠ [] →
      keys = ((List.range (m + 1)).map cks).flatten →
      List.Pairwise (· < ·) keys →
      Wf t (h + 1) page_num keys

lemma Wf.bound {t : TableM} {h page_num : Nat} {keys : List Nat}
    (hwf : Wf t h page_num keys) :
    page_num ≤ TABLE_MAX_PAGES ∧ page_num < t.num_pages := by
  cases hwf with
  | leaf h p keys h1 h2 => exact ⟨h1, h2⟩
  | internal h p m cks keys h1 h2 => exact ⟨h1, h2⟩

lemma mem_getLast? {α : Type} {l : List α} {a : α} (h : l.getLast? = some a) : a ∈ l := by
  induction l with
  | nil => simp at h
  | cons b l ih =>
    cases l with
    | nil => simp at h; simp [h]
    | cons c l =>
      rw [List.getLast?_cons_cons] at h
      exact List.mem_cons_of_mem b (ih h)

lemma sorted_le_getLast {l : List Nat} {a b : Nat}
    (hp : List.Pairwise (· < ·) l) (ha : a ∈ l) (hb : l.getLast? = some b) : a ≤ b := by
  induction l with
  | nil => simp at ha
  | cons c l ih =>
    cases l with
    | nil =>
      simp at hb ha
      omega
    | cons d l =>
      rw [List.getLast?_cons_cons] at hb
      rcases List.mem_cons.mp ha with h | h
      · subst h
        have hbmem : b ∈ d :: l := mem_getLast? hb
        exact le_of_lt (List.rel_of_pairwise_cons hp hbmem)
      · exact ih (List.Pairwise.of_cons hp) h hb

/-- Decomposing the sortedness of the joined child key lists of an internal
node: each part is sorted, and parts are ordered blockwise. -/
lemma join_parts_facts {cks : Nat → List Nat} {m : Nat}
    (hpair : List.Pairwise (· < ·) (((List.range (m + 1)).map cks).flatten)) :
    (∀ i, i ≤ m → List.Pairwise (· < ·) (cks i)) ∧
    (∀ i j a b, i < j → j ≤ m → a ∈ cks i → b ∈ cks j → a < b) := by
  rw [List.pairwise_flatten] at hpair
  obtain ⟨h1, h2⟩ := hpair
  constructor
  · intro i hi
    exact h1 (cks i) (List.mem_map_of_mem cks (List.mem_range.mpr (by omega)))
  · intro i j a b hij hj ha hb
    rw [List.pairwise_map] at h2
    have hr := List.pairwise_iff_get.mp h2
    have hlen : (List.range (m + 1)).length = m + 1 := List.length_range (m + 1)
    have := hr ⟨i, by omega⟩ ⟨j, by omega⟩ (by simpa using hij)
    simp only [List.get_eq_getElem, List.getElem_range] at this
    exact this a ha b hb

lemma mem_join_part {cks : Nat → List Nat} {m i : Nat} {a : Nat}
    (hi : i ≤ m) (ha : a ∈ cks i) :
    a ∈ ((List.range (m + 1)).map cks).flatten := by
  rw [List.mem_flatten]
  exact ⟨cks i, List.mem_map_of_mem cks (List.mem_range.mpr (by omega)), ha⟩

lemma get_page_view_of_le {t : TableM} {p : Nat} (h : p ≤ TABLE_MAX_PAGES) :
    t.get_page_view p = some (t.pages p) := by
  unfold TableM.get_page_view
  rw [if_neg (Nat.not_lt.mpr h)]

/-- Master specification of the descent `find_by_page_num` on a well-formed
subtree: it terminates at a leaf within bounds, returns the binary-search
position inside that leaf, and lands on any key the subtree holds. -/
theorem find_by_page_num_wf_spec :
    ∀ fuel (t : TableM) (h page_num : Nat) (keys : List Nat) (key : Nat),
      Wf t h page_num keys → h < fuel →
      ∃ leaf_page cell, t.find_by_page_num fuel page_num key = some (leaf_page, cell) ∧
        leaf_page ≤ TABLE_MAX_PAGES ∧ leaf_page < t.num_pages ∧
        (t.pages leaf_page).node_type = NodeType.NODE_LEAF ∧
        cell ≤ (t.pages leaf_page).num_cells ∧
        ((cell < (t.pages leaf_page).num_cells ∧ ((t.pages leaf_page).cells cell).1 = key) ∨
         ((∀ j, j < cell → ((t.pages leaf_page).cells j).1 < key) ∧
          (cell = (t.pages leaf_page).num_cells ∨
           (cell < (t.pages leaf_page).num_cells ∧ key < ((t.pages leaf_page).cells cell).1)))) ∧
        (key ∈ keys → cell < (t.pages leaf_page).num_cells ∧
          ((t.pages leaf_page).cells cell).1 = key) := by
  intro fuel
  induction fuel with
  | zero => intro t h p keys key hwf hf; omega
  | succ fuel ih =>
    intro t h p keys key hwf hf
    cases hwf
    case leaf hb1 hb2 htype hsorted hnum hkeys =>
      have hsorted2 : ∀ i j, i < j → j < (t.pages p).num_cells →
          ((t.pages p).cells i).1 < ((t.pages p).cells j).1 := by
        intro i j hij hj
        rw [hnum] at hj
        have hi : i < keys.length := lt_trans hij hj
        have hp := List.pairwise_iff_get.mp hsorted ⟨i, hi⟩ ⟨j, hj⟩ (Fin.mk_lt_mk.mpr hij)
        rw [hkeys i hi, hkeys j hj]
        exact hp
      have hred : t.find_by_page_num (fuel + 1) p key =
          some (p, (t.pages p).leaf_node_find key) := by
        simp only [TableM.find_by_page_num, get_page_view_of_le hb1, htype]
      have hspec := leaf_node_find_spec (t.pages p) key hsorted2
      refine ⟨p, (t.pages p).leaf_node_find key, hred, hb1, hb2, htype,
        hspec.1, hspec.2, ?_⟩
      intro hmem
      rcases hspec.2 with hfound | ⟨hlow, hend⟩
      · exact hfound
      · exfalso
        obtain ⟨⟨i, hi⟩, hget⟩ := List.mem_iff_get.mp hmem
        have hcell : ((t.pages p).cells i).1 = key := by
          rw [hkeys i hi]
          exact hget
        rcases Nat.lt_or_ge i ((t.pages p).leaf_node_find key) with hlt | hge
        · have := hlow i hlt
          omega
        · rcases hend with hcend | ⟨hclt, hcgt⟩
          · rw [hnum] at hcend
            omega
          · rcases Nat.eq_or_lt_of_le hge with heq | hgt
            · rw [heq] at hcgt
              omega
            · have := hsorted2 _ i hgt (by omega)
              omega
    case internal h0 m cks hm hckm hb1 hb2 htype hnum hchild hright hlast hkeys hsorted =>
      have hsortedJ : List.Pairwise (· < ·) (((List.range (m + 1)).map cks).flatten) := by
        rw [← hkeys]; exact hsorted
      have parts := join_parts_facts hsortedJ
      have hpsorted : ∀ i j, i < j → j < (t.pages p).num_keys →
          ((t.pages p).icells i).2 < ((t.pages p).icells j).2 := by
        intro i j hij hj
        rw [hnum] at hj
        exact parts.2 i j _ _ hij (le_of_lt hj)
          (mem_getLast? (hlast i (lt_trans hij hj)))
          (mem_getLast? (hlast j hj))
      have hspec := internal_node_find_child_spec (t.pages p) key hpsorted
      set ci := (t.pages p).internal_node_find_child key with hci_def
      by_cases hcilt : ci < (t.pages p).num_keys
      · have hge : key ≤ ((t.pages p).icells ci).2 := hspec.2.2 ci (le_refl _) hcilt
        have hred : t.find_by_page_num (fuel + 1) p key =
            t.find_by_page_num fuel ((t.pages p).icells ci).1 key := by
          simp only [TableM.find_by_page_num, get_page_view_of_le hb1, htype]
          rw [← hci_def, if_pos hcilt, if_pos hge]
        have hcm : ci < m := hnum ▸ hcilt
        obtain ⟨lp, c, hfind, hrest⟩ := ih t h0 _ (cks ci) key (hchild ci hcm) (by omega)
        refine ⟨lp, c, hred ▸ hfind, hrest.1, hrest.2.1, hrest.2.2.1, hrest.2.2.2.1,
          hrest.2.2.2.2.1, ?_⟩
        intro hmem
        apply hrest.2.2.2.2.2
        rw [hkeys] at hmem
        obtain ⟨l, hl, hkl⟩ := List.mem_flatten.mp hmem
        obtain ⟨i0, hi0, rfl⟩ := List.mem_map.mp hl
        have hi0m : i0 ≤ m := by
          have := List.mem_range.mp hi0
          omega
        rcases Nat.lt_trichotomy i0 ci with hlt | heq | hgt
        · exfalso
          have hkey_lt : ((t.pages p).icells i0).2 < key := hspec.2.1 i0 hlt
          have hle : key ≤ ((t.pages p).icells i0).2 :=
            sorted_le_getLast (parts.1 i0 hi0m) hkl (hlast i0 (by omega))
          omega
        · exact heq ▸ hkl
        · exfalso
          have hmemci : ((t.pages p).icells ci).2 ∈ cks ci :=
            mem_getLast? (hlast ci hcm)
          have := parts.2 ci i0 _ key hgt hi0m hmemci hkl
          omega
      · have hred : t.find_by_page_num (fuel + 1) p key =
            t.find_by_page_num fuel ((t.pages p).right_child) key := by
          simp only [TableM.find_by_page_num, get_page_view_of_le hb1, htype]
          rw [← hci_def, if_neg hcilt]
        have hcieq : ci = m := by
          have h1 := hspec.1
          rw [hnum] at h1 hcilt
          omega
        obtain ⟨lp, c, hfind, hrest⟩ := ih t h0 _ (cks m) key hright (by omega)
        refine ⟨lp, c, hred ▸ hfind, hrest.1, hrest.2.1, hrest.2.2.1, hrest.2.2.2.1,
          hrest.2.2.2.2.1, ?_⟩
        intro hmem
        apply hrest.2.2.2.2.2
        rw [hkeys] at hmem
        obtain ⟨l, hl, hkl⟩ := List.mem_flatten.mp hmem
        obtain ⟨i0, hi0, rfl⟩ := List.mem_map.mp hl
        have hi0m : i0 ≤ m := by
          have := List.mem_range.mp hi0
          omega
        rcases Nat.eq_or_lt_of_le hi0m with heq | hlt
        · exact heq ▸ hkl
        · exfalso
          have hkey_lt : ((t.pages p).icells i0).2 < key := by
            apply hspec.2.1
            omega
          have hle : key ≤ ((t.pages p).icells i0).2 :=
            sorted_le_getLast (parts.1 i0 hi0m) hkl (hlast i0 hlt)
          omega

/-- C1.  For every well-formed tree (leaf keys strictly ascending,
internal-node keys strictly ascending with each key equal to the max key of
its child subtree - the `Wf` predicate) and every key `k`, `Table::find(k)`
returns a pair `(page, cell)` such that `page` is a leaf and `cell` is
either the index of the cell holding `k` or the index at which an insert of
`k` would be placed: the first index whose key is greater than `k`, possibly
equal to `num_cells`. -/
theorem find_returns_leaf_position (t : TableM) (fuel h : Nat) (keys : List Nat) (key : Nat)
    (hwf : Wf t h t.root_page_num keys) (hfuel : h < fuel) :
    ∃ leaf_page cell, t.find fuel key = some (leaf_page, cell) ∧
      (t.pages leaf_page).node_type = NodeType.NODE_LEAF ∧
      ((cell < (t.pages leaf_page).num_cells ∧ ((t.pages leaf_page).cells cell).1 = key) ∨
       ((∀ j, j < cell → ((t.pages leaf_page).cells j).1 < key) ∧
        (cell = (t.pages leaf_page).num_cells ∨
         (cell < (t.pages leaf_page).num_cells ∧ key < ((t.pages leaf_page).cells cell).1)))) := by
  obtain ⟨lp, c, hfind, hb1, hb2, htype, hle, hdisj, hmem⟩ :=
    find_by_page_num_wf_spec fuel t h t.root_page_num keys key hwf hfuel
  have hbound := (Wf.bound hwf).1
  refine ⟨lp, c, ?_, htype, hdisj⟩
  unfold TableM.find
  rw [get_page_view_of_le hbound]
  exact hfind

/-- A concrete one-leaf table used as the C1 witness. -/
def wit_leaf_page : Page :=
  { Page.new with
    node_type := .NODE_LEAF
    is_root := true
    num_cells := 2
    cells := fun i =>
      if i = 0 then (10, SerRow.zero) else if i = 1 then (20, SerRow.zero)
      else (0, SerRow.zero) }

def witT1 : TableM :=
  { pages := fun _ => wit_leaf_page, num_pages := 1, root_page_num := 0 }

/-- Witness for C1 at a concrete two-cell root leaf and key 15. -/
theorem find_returns_leaf_position_witness :
    ∃ leaf_page cell, witT1.find 1 15 = some (leaf_page, cell) ∧
      (witT1.pages leaf_page).node_type = NodeType.NODE_LEAF ∧
      ((cell < (witT1.pages leaf_page).num_cells ∧
        ((witT1.pages leaf_page).cells cell).1 = 15) ∨
       ((∀ j, j < cell → ((witT1.pages leaf_page).cells j).1 < 15) ∧
        (cell = (witT1.pages leaf_page).num_cells ∨
         (cell < (witT1.pages leaf_page).num_cells ∧
          15 < ((witT1.pages leaf_page).cells cell).1)))) := by
  apply find_returns_leaf_position witT1 1 0 [10, 20] 15 ?_ (by omega)
  exact Wf.leaf 0 0 [10, 20] (by decide) (by decide) (by decide) (by decide)
    (by decide) (by decide)

/-! ## Mutating operations

These follow `Table::internal_node_insert` (main.rs:528),
`Cursor::leaf_node_insert` (main.rs:672), `Cursor::leaf_node_split_and_insert`
(main.rs:705), `copy_page_data` (main.rs:799), `Cursor::create_new_node`
(main.rs:754) and `execute_insert` (main.rs:976) step by step.  `Option` is
the fatal-exit monad. -/

inductive ExecuteResult where
  | EXECUTE_SUCCESS
  | EXECUTE_FAIL
  | EXECUTE_TABLE_FULL
  | EXECUTE_DUPLICATE_KEY
  deriving DecidableEq, Repr

/-- Descending index list: the Rust iterator `(a..b).rev()`. -/
def revRange (a b : Nat) : List Nat := (List.range' a (b - a)).reverse

/-- `copy_page_data` (main.rs:799).  Each iteration writes destination cell
`i % LEAF_NODE_LEFT_SPLIT_COUNT` of `dst` from the new row (at
`i = value_cell_num`), or from source cell `i - 1` (past the insertion
point), or from source cell `i`.  The source reads through a raw pointer
`src_ptr`; at the first call site (filling the fresh right leaf) it points at
the old, untouched leaf (`src_is_dst = false`, reads come from the `src`
snapshot), at the second call site (rewriting the old leaf in place) it
points at `dst` itself (`src_is_dst = true`, reads see the writes already
made by later iterations, exactly as the aliased pointer does).  In the
`i = value_cell_num` arm the source writes the key and then serializes the
row into the value bytes of the same cell: together one whole-cell write,
modelled as such. -/
def copy_page_data (rang : List Nat) (src : Page) (dst : Page) (src_is_dst : Bool)
    (key : Nat) (value : Row) (value_cell_num : Nat) : Page :=
  rang.foldl
    (fun d i =>
      let s := if src_is_dst then d else src
      let index_within_node := i % LEAF_NODE_LEFT_SPLIT_COUNT
      d.set_leaf_cell index_within_node
        (if i = value_cell_num then (key, serialize_row value)
         else if i > value_cell_num then s.cells (i - 1)
         else s.cells i))
    dst

/-- `Table::internal_node_insert` (main.rs:528).  Note on the `else` branch:
the source shifts cells with
`copy_nonoverlapping(parent.leaf_node_cell(i-1), parent.leaf_node_cell(i), INTERNAL_NODE_CELL_SIZE)`
for `i` in `(child_max_key_index+1 ..= origin_num_keys).rev()` - it addresses
the INTERNAL node's cells through the LEAF cell layout.  `leaf_node_cell(i)`
is byte offset `LEAF_NODE_HEADER_SIZE + i*LEAF_NODE_CELL_SIZE = 26 + 295*i`,
while internal cell `i` lives at `26 + 12*i`.  Every loop index satisfies
`i ≥ 1`, so each write lands at byte offset `≥ 321`, strictly beyond the end
of the internal cell array (`26 + 12*(num_keys+1) ≤ 74` bytes with
`num_keys ≤ 3`) and beyond every internal-header field; the written bytes
are never read back through the internal-node accessors (the page stays an
internal node for good).  The loop therefore does not change any
internal-node-visible state, and the model reflects that: no shift happens.
This is the divergence behind claims C3 and C7. -/
def TableM.internal_node_insert (t : TableM) (parent_page_num child_page_num : Nat) :
    Option TableM :=
  match t.get_page_view child_page_num with
  | none => none
  | some child =>
  match child.get_node_max_key with
  | none => none
  | some child_max_key =>
  match t.get_page parent_page_num with
  | none => none
  | some (parent, t1) =>
    let right_child_page_num := parent.get_internal_node_right_child
    let child_max_key_index := parent.internal_node_find_child child_max_key
    let origin_num_keys := parent.get_internal_node_num_keys
    if origin_num_keys ≥ INTERNAL_NODE_MAX_CELLS then none
    else
      let t2 := t1.setPage parent_page_num (parent.increase_internal_node_num_keys 1)
      match t2.get_page_view right_child_page_num with
      | none => none
      | some right_child =>
      match right_child.get_node_max_key with
      | none => none
      | some right_child_max_key =>
      if child_max_key > right_child_max_key then
        match t2.get_page parent_page_num with
        | none => none
        | some (p2, t3) =>
          let p3 := p2.set_internal_node_right_child child_page_num
          match p3.set_internal_node_child origin_num_keys right_child_page_num with
          | none => none
          | some p4 =>
            some (t3.setPage parent_page_num
              (p4.set_internal_node_key origin_num_keys right_child_max_key))
      else
        match t2.get_page parent_page_num with
        | none => none
        | some (p2, t3) =>
          -- the broken shift loop: a no-op on the internal-node state (see above)
          match p2.set_internal_node_child child_max_key_index child_page_num with
          | none => none
          | some p4 =>
            some (t3.setPage parent_page_num
              (p4.set_internal_node_key child_max_key_index child_max_key))

/-- `Cursor::create_new_node` (main.rs:754): grow a new root after the root
leaf split.  `page_num` is the cursor's page (the old root), and
`right_child_page_num` the page created by the split.  The whole old page is
byte-copied into a fresh page (`left_child`), which keeps both body views in
the model, then the old root page is re-typed in place. -/
def TableM.create_new_node (t : TableM) (page_num right_child_page_num : Nat) :
    Option TableM :=
  let left_child_page_num := t.get_unused_page_num
  match t.get_page_view page_num with
  | none => none
  | some old_node =>
  match t.get_page left_child_page_num with
  | none => none
  | some (_, t1) =>
    let left_child := old_node.set_node_root false
    let t2 := t1.setPage left_child_page_num left_child
    match left_child.get_node_max_key with
    | none => none
    | some node_max_key =>
    match t2.get_page page_num with
    | none => none
    | some (old2, t3) =>
      let r1 := (old2.init_internal_node).set_node_root true
      let r2 := r1.set_internal_node_num_keys 1
      match r2.set_internal_node_child 0 left_child_page_num with
      | none => none
      | some r3 =>
        let r4 := r3.set_internal_node_key 0 node_max_key
        let r5 := r4.set_internal_node_right_child right_child_page_num
        let t4 := t3.setPage page_num r5
        let root_page_num := t.root_page_num
        match t4.get_page left_child_page_num with
        | none => none
        | some (lc, t5) =>
          let t6 := t5.setPage left_child_page_num (lc.set_node_parent root_page_num)
          match t6.get_page right_child_page_num with
          | none => none
          | some (rc, t7) =>
            some (t7.setPage right_child_page_num (rc.set_node_parent root_page_num))

/-- `Cursor::leaf_node_split_and_insert` (main.rs:705): fill the fresh right
leaf from the old one (first `copy_page_data` call, descending indices 13..7,
reads from the old page), then rewrite the old leaf in place (second call,
descending 6..0, aliased), fix the counts and the leaf chain, then either
grow a new root or update the parent. -/
def TableM.leaf_node_split_and_insert (t : TableM) (page_num cell_num : Nat)
    (key : Nat) (value : Row) : Option TableM :=
  let value_cell_num := cell_num
  let new_page_num := t.get_unused_page_num
  match t.get_page_view page_num with
  | none => none
  | some old_node =>
  match old_node.get_node_max_key with
  | none => none
  | some old_max =>
    let old_next_page_num := old_node.get_leaf_node_next_leaf
    let old_node_parent_num := old_node.get_node_parent
    match t.get_page new_page_num with
    | none => none
    | some (new0, t1) =>
      let new1 := ((new0.init_leaf_node).set_node_parent old_node_parent_num).set_leaf_node_next_leaf old_next_page_num
      let new2 := copy_page_data
        (revRange LEAF_NODE_LEFT_SPLIT_COUNT (LEAF_NODE_MAX_CELLS + 1))
        old_node new1 false key value value_cell_num
      let new3 := new2.set_leaf_node_num_cells LEAF_NODE_RIGHT_SPLIT_COUNT
      let t2 := t1.setPage new_page_num new3
      match t2.get_page page_num with
      | none => none
      | some (oldb, t3) =>
        let is_root := oldb.is_node_root
        let old2 := copy_page_data (revRange 0 LEAF_NODE_LEFT_SPLIT_COUNT)
          oldb oldb true key value value_cell_num
        let old3 := (old2.set_leaf_node_num_cells LEAF_NODE_LEFT_SPLIT_COUNT).set_leaf_node_next_leaf new_page_num
        let t4 := t3.setPage page_num old3
        if is_root then t4.create_new_node page_num new_page_num
        else
          match t4.get_page page_num with
          | none => none
          | some (old4, t5) =>
            let parent_page_num := old4.get_node_parent
            match old4.get_node_max_key with
            | none => none
            | some new_max =>
            match t5.get_page parent_page_num with
            | none => none
            | some (parent, t6) =>
              let t7 := t6.setPage parent_page_num
                (parent.update_internal_node_key old_max new_max)
              t7.internal_node_insert parent_page_num new_page_num

/-- `Cursor::leaf_node_insert` (main.rs:672) at cursor position
`(page_num, cell_num)`.  A full leaf splits (the source passes `value.id` as
the key); otherwise cells from `cell_num` on shift one slot right (the
descending copy loop; each read happens before its slot is overwritten) and
the new cell is written. -/
def TableM.leaf_node_insert (t : TableM) (page_num cell_num : Nat) (key : Nat)
    (value : Row) : Option TableM :=
  match t.get_page page_num with
  | none => none
  | some (page, t1) =>
    let num_cells := page.leaf_node_num_cells
    if num_cells ≥ LEAF_NODE_MAX_CELLS then
      t1.leaf_node_split_and_insert page_num cell_num value.id value
    else
      let page1 :=
        if cell_num < num_cells then
          (revRange (cell_num + 1) (num_cells + 1)).foldl
            (fun p i => p.set_leaf_cell i (p.cells (i - 1))) page
        else page
      let page2 := page1.set_leaf_node_num_cells (num_cells + 1)
      let page3 := page2.set_leaf_node_key cell_num key
      let page4 := page3.set_leaf_node_value cell_num (serialize_row value)
      some (t1.setPage page_num page4)

/-- `execute_insert` (main.rs:976).  The statement always carries a row here,
so the source's `None => EXECUTE_FAIL` arm is not modelled.  `fuel` bounds
the `find` descent. -/
def TableM.execute_insert (t : TableM) (fuel : Nat) (row_to_insert : Row) :
    Option (ExecuteResult × TableM) :=
  match t.find fuel row_to_insert.id with
  | none => none
  | some (page_num, cell_num) =>
    match t.get_page page_num with
    | none => none
    | some (page, t1) =>
      if cell_num < page.leaf_node_num_cells ∧
          page.leaf_node_key cell_num = row_to_insert.id then
        some (.EXECUTE_DUPLICATE_KEY, t1)
      else
        match t1.leaf_node_insert page_num cell_num row_to_insert.id row_to_insert with
        | none => none
        | some t2 => some (.EXECUTE_SUCCESS, t2)

/-! ## Scanning (`Cursor::table_start`, `Cursor::advance`, `execute_select`;
main.rs:627, 650, 1000) -/

/-- `Pager::get_leftmost_leaf_page_num` (main.rs:430): descend `child[0]`
until a leaf. -/
def TableM.get_leftmost_leaf_page_num (t : TableM) : Nat → Nat → Option Nat
  | 0, _ => none
  | fuel + 1, page_num =>
    match t.get_page_view page_num with
    | none => none
    | some p =>
      if p.is_leaf_node then some page_num
      else
        match p.get_internal_node_child 0 with
        | none => none
        | some child => t.get_leftmost_leaf_page_num fuel child

/-- The `while !cursor.end_of_table` loop of `execute_select`: read the row
at the cursor, then `Cursor::advance` (move to the next cell, or to the head
of the next leaf, or stop when `next_leaf_page_num` is 0).  The verified runs
only scan pages within pager bounds, so the `get_page_view` bound check along
the walk is omitted here. -/
def scan_loop : Nat → TableM → Nat → Nat → List Row
  | 0, _, _, _ => []
  | fuel + 1, t, page_num, cell_num =>
    let p := t.pages page_num
    let row := row_mut_slot (p.cells cell_num).2
    let next_cell := cell_num + 1
    if next_cell ≥ p.leaf_node_num_cells then
      let next_page := p.get_leaf_node_next_leaf
      if next_page = 0 then [row]
      else row :: scan_loop fuel t next_page 0
    else row :: scan_loop fuel t page_num next_cell

/-- `execute_select` (main.rs:1000): seed a cursor with `table_start` (the
leftmost leaf, cell 0, `end_of_table` iff that leaf is empty) and walk the
leaf chain, returning the rows in visit order. -/
def TableM.execute_select (t : TableM) (fuel : Nat) : Option (List Row) :=
  match t.get_leftmost_leaf_page_num fuel t.root_page_num with
  | none => none
  | some leaf_page =>
    if (t.pages leaf_page).leaf_node_num_cells = 0 then some []
    else some (scan_loop fuel t leaf_page 0)

/-- The ids of the scanned rows. -/
def TableM.scan_ids (t : TableM) (fuel : Nat) : Option (List Nat) :=
  (t.execute_select fuel).map (List.map Row.id)

/-- `db_open` on a fresh (empty) file (main.rs:903,923): `Pager::new` sees
zero pages, `get_page(0)` installs a zeroed page and bumps `num_pages` to 1,
and page 0 is initialized as the empty root leaf. -/
def db_open_fresh : TableM :=
  let t0 : TableM := { pages := fun _ => Page.new, num_pages := 0, root_page_num := 0 }
  match t0.get_page 0 with
  | none => t0
  | some (pg, t1) => t1.setPage 0 ((pg.init_leaf_node).set_node_root true)

/-- Run a sequence of inserts (`none` as soon as one is fatal). -/
def run_inserts (fuel : Nat) (rows : List Row) (t : TableM) : Option TableM :=
  rows.foldlM (fun t r => (t.execute_insert fuel r).map Prod.snd) t

/-! ## Lemmas about the split copy loops -/

lemma copy_page_data_fields (rang : List Nat) (src dst : Page) (b : Bool)
    (key : Nat) (value : Row) (v : Nat) :
    (copy_page_data rang src dst b key value v).node_type = dst.node_type ∧
    (copy_page_data rang src dst b key value v).is_root = dst.is_root ∧
    (copy_page_data rang src dst b key value v).parent_page_num = dst.parent_page_num ∧
    (copy_page_data rang src dst b key value v).num_cells = dst.num_cells ∧
    (copy_page_data rang src dst b key value v).next_leaf = dst.next_leaf ∧
    (copy_page_data rang src dst b key value v).num_keys = dst.num_keys ∧
    (copy_page_data rang src dst b key value v).right_child = dst.right_child ∧
    (copy_page_data rang src dst b key value v).icells = dst.icells := by
  induction rang generalizing dst with
  | nil => exact ⟨rfl, rfl, rfl, rfl, rfl, rfl, rfl, rfl⟩
  | cons i rest ih =>
    simp only [copy_page_data, List.foldl_cons] at *
    have := ih (dst.set_leaf_cell (i % LEAF_NODE_LEFT_SPLIT_COUNT)
      (if i = v then (key, serialize_row value)
       else if i > v then ((if b then dst else src).cells (i - 1))
       else ((if b then dst else src).cells i)))
    simpa [Page.set_leaf_cell] using this

lemma revRange_7_14 : revRange LEAF_NODE_LEFT_SPLIT_COUNT (LEAF_NODE_MAX_CELLS + 1) =
    [13, 12, 11, 10, 9, 8, 7] := by decide

lemma revRange_0_7 : revRange 0 LEAF_NODE_LEFT_SPLIT_COUNT = [6, 5, 4, 3, 2, 1, 0] := by decide

/-- First `copy_page_data` call of the split (fresh right leaf, reads from
the old leaf): destination cell `j` receives conceptual cell `j + 7` of the
old cells with the new cell virtually inserted at `v`. -/
lemma copy_new_cells (L new1 : Page) (key : Nat) (value : Row) (v : Nat) :
    ∀ j, j < LEAF_NODE_RIGHT_SPLIT_COUNT →
      (copy_page_data (revRange LEAF_NODE_LEFT_SPLIT_COUNT (LEAF_NODE_MAX_CELLS + 1))
          L new1 false key value v).cells j =
        (if j + LEAF_NODE_LEFT_SPLIT_COUNT = v then (key, serialize_row value)
         else if j + LEAF_NODE_LEFT_SPLIT_COUNT > v then
           L.cells (j + LEAF_NODE_LEFT_SPLIT_COUNT - 1)
         else L.cells (j + LEAF_NODE_LEFT_SPLIT_COUNT)) := by
  intro j hj
  rw [revRange_7_14]
  rw [show LEAF_NODE_RIGHT_SPLIT_COUNT = 7 from rfl] at hj
  simp only [copy_page_data, List.foldl_cons, List.foldl_nil, if_neg Bool.false_ne_true]
  interval_cases j <;>
    simp [Page.set_leaf_cell, show LEAF_NODE_LEFT_SPLIT_COUNT = 7 from rfl]

/-- Second `copy_page_data` call of the split (in-place rewrite of the old
leaf, aliased source): destination cell `j` receives conceptual cell `j` of
the old cells with the new cell virtually inserted at `v`.  The descending
iteration order means every source cell is read before its slot is
overwritten, which is what makes the in-place rewrite correct. -/
lemma copy_old_cells (oldb : Page) (key : Nat) (value : Row) (v : Nat) :
    ∀ j, j < LEAF_NODE_LEFT_SPLIT_COUNT →
      (copy_page_data (revRange 0 LEAF_NODE_LEFT_SPLIT_COUNT)
          oldb oldb true key value v).cells j =
        (if j = v then (key, serialize_row value)
         else if j > v then oldb.cells (j - 1)
         else oldb.cells j) := by
  intro j hj
  rw [revRange_0_7]
  rw [show LEAF_NODE_LEFT_SPLIT_COUNT = 7 from rfl] at hj
  simp only [copy_page_data, List.foldl_cons, List.foldl_nil, if_pos rfl]
  interval_cases j <;>
    simp [Page.set_leaf_cell, show LEAF_NODE_LEFT_SPLIT_COUNT = 7 from rfl]

/-- The live cells of a leaf page, as a list. -/
def leafCellList (p : Page) : List (Nat × SerRow) := (List.range p.num_cells).map p.cells

/-- The conceptual sequence of the split: the old leaf's cells with the new
cell inserted at position `cell_num` (spec section 4.5). -/
def insertedCells (p : Page) (cell_num key : Nat) (value : Row) : List (Nat × SerRow) :=
  (leafCellList p).take cell_num ++ (key, serialize_row value) :: (leafCellList p).drop cell_num

lemma leafCellList_length (p : Page) : (leafCellList p).length = p.num_cells := by
  simp [leafCellList]

lemma leafCellList_get (p : Page) (i : Nat) (hi : i < (leafCellList p).length) :
    (leafCellList p).get ⟨i, hi⟩ = p.cells i := by
  simp [leafCellList]

lemma insertedCells_length (p : Page) (c key : Nat) (value : Row) (hc : c ≤ p.num_cells) :
    (insertedCells p c key value).length = p.num_cells + 1 := by
  simp only [insertedCells, List.length_append, List.length_take, List.length_cons,
    List.length_drop, leafCellList_length]
  omega

lemma insertedCells_get (p : Page) (c key : Nat) (value : Row) (hc : c ≤ p.num_cells)
    (i : Nat) (hi : i < (insertedCells p c key value).length) :
    (insertedCells p c key value).get ⟨i, hi⟩ =
      if i < c then p.cells i
      else if i = c then (key, serialize_row value)
      else p.cells (i - 1) := by
  have hlen := leafCellList_length p
  have htl : ((leafCellList p).take c).length = c := by
    rw [List.length_take]
    omega
  have hi2 : i < p.num_cells + 1 := by
    rw [insertedCells_length p c key value hc] at hi
    omega
  simp only [insertedCells, List.get_eq_getElem] at hi ⊢
  rcases Nat.lt_trichotomy i c with hlt | heq | hgt
  · rw [if_pos hlt]
    rw [List.getElem_append_left (by omega : i < ((leafCellList p).take c).length)]
    simp [List.getElem_take, leafCellList]
  · subst heq
    rw [if_neg (by omega), if_pos rfl]
    rw [List.getElem_append_right (by omega : ((leafCellList p).take i).length ≤ i)]
    simp [htl]
  · rw [if_neg (by omega), if_neg (by omega)]
    rw [List.getElem_append_right (by omega : ((leafCellList p).take c).length ≤ i)]
    have hidx : i - ((leafCellList p).take c).length = (i - c - 1) + 1 := by
      rw [htl]
      omega
    simp only [hidx, List.getElem_cons_succ]
    simp only [List.getElem_drop]
    simp only [leafCellList, List.getElem_map, List.getElem_range]
    congr 1
    omega

lemma insertedCells_perm (p : Page) (c key : Nat) (value : Row) :
    List.Perm (insertedCells p c key value)
      ((key, serialize_row value) :: leafCellList p) := by
  unfold insertedCells
  have h1 : List.Perm
      ((leafCellList p).take c ++ (key, serialize_row value) :: (leafCellList p).drop c)
      ((key, serialize_row value) :: ((leafCellList p).take c ++ (leafCellList p).drop c)) :=
    List.perm_middle
  rwa [List.take_append_drop] at h1

lemma insertedCells_sorted (p : Page) (c key : Nat) (value : Row)
    (hc : c ≤ p.num_cells)
    (hsorted : ∀ i j, i < j → j < p.num_cells → (p.cells i).1 < (p.cells j).1)
    (hlow : ∀ j, j < c → (p.cells j).1 < key)
    (hhigh : ∀ j, c ≤ j → j < p.num_cells → key < (p.cells j).1) :
    List.Pairwise (· < ·) ((insertedCells p c key value).map Prod.fst) := by
  rw [List.pairwise_map]
  apply List.pairwise_iff_get.mpr
  intro a b hab
  have hab2 : a.val < b.val := hab
  have hlen2 := insertedCells_length p c key value hc
  have ha2 : a.val < p.num_cells + 1 := by
    have := a.isLt
    omega
  have hb2 : b.val < p.num_cells + 1 := by
    have := b.isLt
    omega
  rw [insertedCells_get p c key value hc a.val a.isLt,
    insertedCells_get p c key value hc b.val b.isLt]
  split_ifs with h1 h2 h3 h4 h5 h6 h7
  · exact hsorted a.val b.val hab2 (by omega)
  · exact hlow a.val h1
  · exact lt_trans (hlow a.val h1) (hhigh (b.val - 1) (by omega) (by omega))
  · omega
  · omega
  · exact hhigh (b.val - 1) (by omega) (by omega)
  · omega
  · omega
  · exact hsorted (a.val - 1) (b.val - 1) (by omega) (by omega)


lemma internal_find_child_aux_le (getKey : Nat → Nat) (key : Nat) :
    ∀ fuel min_cell max_cell, min_cell ≤ max_cell →
      internal_find_child_aux getKey key fuel min_cell max_cell ≤ max_cell := by
  intro fuel
  induction fuel with
  | zero => intro mn mx h; simp [internal_find_child_aux]
  | succ fuel ih =>
    intro mn mx h
    by_cases hlt : mn < mx
    · simp only [internal_find_child_aux, if_pos hlt]
      by_cases hk : getKey ((mx - mn) / 2 + mn) ≥ key
      · rw [if_pos hk]
        exact le_trans (ih mn _ (by omega)) (by omega)
      · rw [if_neg hk]
        exact ih _ mx (by omega)
    · simp [internal_find_child_aux, if_neg hlt]

lemma internal_node_find_child_le (p : Page) (key : Nat) :
    p.internal_node_find_child key ≤ p.num_keys :=
  internal_find_child_aux_le _ key (p.num_keys + 1) 0 p.num_keys (by omega)

/-- Success and frame conditions for `internal_node_insert`: with a
non-full parent below the allocation mark, readable max keys and in-bounds
pages, the call returns a state that differs from the input only at the
parent page. -/
lemma internal_node_insert_success (t : TableM) (pp cp cmk : Nat)
    (hppb : pp ≤ TABLE_MAX_PAGES)
    (hppn : pp < t.num_pages)
    (hcpb : cp ≤ TABLE_MAX_PAGES)
    (hcmk : (t.pages cp).get_node_max_key = some cmk)
    (hkeys : (t.pages pp).num_keys < INTERNAL_NODE_MAX_CELLS)
    (hrcb : (t.pages pp).right_child ≤ TABLE_MAX_PAGES)
    (hrcne : (t.pages pp).right_child ≠ pp)
    (hrcmax : ((t.pages ((t.pages pp).right_child)).get_node_max_key).isSome = true) :
    ∃ t', t.internal_node_insert pp cp = some t' ∧
      (∀ q, q ≠ pp → t'.pages q = t.pages q) ∧
      t'.root_page_num = t.root_page_num ∧
      t'.num_pages = t.num_pages := by
  obtain ⟨rmk, hrmk⟩ := Option.isSome_iff_exists.mp hrcmax
  have hnp1 : ¬ (pp ≥ t.num_pages) := Nat.not_le.mpr hppn
  have hc1 : ¬ ((t.pages pp).num_keys > (t.pages pp).num_keys + 1) := by omega
  have hc2 : ¬ ((t.pages pp).num_keys = (t.pages pp).num_keys + 1) := by omega
  have hfc := internal_node_find_child_le (t.pages pp) cmk
  have hc3 : ¬ ((t.pages pp).internal_node_find_child cmk > (t.pages pp).num_keys + 1) := by
    omega
  simp only [TableM.internal_node_insert, get_page_view_of_le hcpb, hcmk]
  simp only [TableM.get_page, if_neg (Nat.not_lt.mpr hppb)]
  simp only [Page.get_internal_node_right_child, Page.get_internal_node_num_keys]
  rw [if_neg (Nat.not_le.mpr hkeys)]
  simp only [TableM.setPage, TableM.get_page_view, if_neg (Nat.not_lt.mpr hrcb)]
  simp only [if_neg hrcne, hrmk, if_true, if_neg hnp1]
  simp only [Page.set_internal_node_child, Page.increase_internal_node_num_keys,
    Page.set_internal_node_num_keys, Page.get_internal_node_num_keys,
    Page.set_internal_node_right_child]
  by_cases hbr : cmk > rmk
  · rw [if_pos hbr]
    rw [if_neg hc1, if_neg hc2]
    refine ⟨_, rfl, ?_, rfl, rfl⟩
    intro q hq
    simp [if_neg hq]
  · rw [if_neg hbr]
    by_cases hce : (t.pages pp).internal_node_find_child cmk = (t.pages pp).num_keys + 1
    · rw [if_neg hc3, if_pos hce]
      refine ⟨_, rfl, ?_, rfl, rfl⟩
      intro q hq
      simp [if_neg hq]
    · rw [if_neg hc3, if_neg hce]
      refine ⟨_, rfl, ?_, rfl, rfl⟩
      intro q hq
      simp [if_neg hq]

/-- The fresh right leaf of a split, after header setup (first block of
`leaf_node_split_and_insert`, before the cell copy). -/
def splitNew1 (t : TableM) (page_num : Nat) : Page :=
  (((t.pages t.num_pages).init_leaf_node).set_node_parent
    ((t.pages page_num).get_node_parent)).set_leaf_node_next_leaf
    ((t.pages page_num).get_leaf_node_next_leaf)

/-- The fresh right leaf of a split, fully built. -/
def splitNew3 (t : TableM) (page_num cell_num key : Nat) (value : Row) : Page :=
  (copy_page_data (revRange LEAF_NODE_LEFT_SPLIT_COUNT (LEAF_NODE_MAX_CELLS + 1))
    (t.pages page_num) (splitNew1 t page_num) false key value cell_num).set_leaf_node_num_cells
    LEAF_NODE_RIGHT_SPLIT_COUNT

/-- The old leaf of a split after its in-place rewrite. -/
def splitOld3 (t : TableM) (page_num cell_num key : Nat) (value : Row) : Page :=
  ((copy_page_data (revRange 0 LEAF_NODE_LEFT_SPLIT_COUNT) (t.pages page_num)
      (t.pages page_num) true key value cell_num).set_leaf_node_num_cells
    LEAF_NODE_LEFT_SPLIT_COUNT).set_leaf_node_next_leaf t.num_pages

lemma leaf_split_reduce (t : TableM) (page_num cell_num key : Nat) (value : Row)
    (mk nmk : Nat)
    (hb1 : page_num ≤ TABLE_MAX_PAGES) (hb2 : page_num < t.num_pages)
    (hnp : t.num_pages ≤ TABLE_MAX_PAGES)
    (hroot : (t.pages page_num).is_root = false)
    (hmax : (t.pages page_num).get_node_max_key = some mk)
    (hppb : (t.pages page_num).parent_page_num ≤ TABLE_MAX_PAGES)
    (hppn : (t.pages page_num).parent_page_num < t.num_pages)
    (hppne1 : (t.pages page_num).parent_page_num ≠ page_num)
    (hnewmax : (splitOld3 t page_num cell_num key value).get_node_max_key = some nmk) :
    t.leaf_node_split_and_insert page_num cell_num key value =
      TableM.internal_node_insert
        (((({ t with num_pages := t.num_pages + 1 }).setPage t.num_pages
            (splitNew3 t page_num cell_num key value)).setPage page_num
            (splitOld3 t page_num cell_num key value)).setPage
          ((t.pages page_num).parent_page_num)
          ((t.pages ((t.pages page_num).parent_page_num)).update_internal_node_key mk nmk))
        ((t.pages page_num).parent_page_num) t.num_pages := by
  have hne1 : page_num ≠ t.num_pages := by omega
  have hne2 : (t.pages page_num).parent_page_num ≠ t.num_pages := by omega
  have hparent : (splitOld3 t page_num cell_num key value).get_node_parent =
      (t.pages page_num).parent_page_num := by
    simp [splitOld3, Page.get_node_parent, Page.set_leaf_node_next_leaf,
      Page.set_leaf_node_num_cells, (copy_page_data_fields _ _ _ _ _ _ _).2.2.1]
  have hrootb : (t.pages page_num).is_node_root = false := by
    simp [Page.is_node_root, hroot]
  simp only [TableM.leaf_node_split_and_insert, TableM.get_unused_page_num,
    get_page_view_of_le hb1, hmax]
  simp only [TableM.get_page, if_neg (Nat.not_lt.mpr hnp), ge_iff_le, le_refl, if_pos,
    if_neg (Nat.not_lt.mpr hb1), TableM.setPage]
  simp only [hne1, ite_false, if_neg hne1]
  have hfoldOld : ((copy_page_data (revRange 0 LEAF_NODE_LEFT_SPLIT_COUNT) (t.pages page_num)
      (t.pages page_num) true key value cell_num).set_leaf_node_num_cells
      LEAF_NODE_LEFT_SPLIT_COUNT).set_leaf_node_next_leaf t.num_pages =
      splitOld3 t page_num cell_num key value := rfl
  have hfoldNew : (copy_page_data (revRange LEAF_NODE_LEFT_SPLIT_COUNT
      (LEAF_NODE_MAX_CELLS + 1)) (t.pages page_num)
      (((t.pages t.num_pages).init_leaf_node.set_node_parent
        (t.pages page_num).get_node_parent).set_leaf_node_next_leaf
        (t.pages page_num).get_leaf_node_next_leaf) false key value
      cell_num).set_leaf_node_num_cells LEAF_NODE_RIGHT_SPLIT_COUNT =
      splitNew3 t page_num cell_num key value := rfl
  simp only [hfoldOld, hfoldNew, hrootb]
  rw [if_neg (by decide : ¬ (false = true))]
  simp only [hnewmax, hparent]
  rw [if_neg (Nat.not_lt.mpr hppb)]
  simp only [if_neg hppne1, if_neg hne2]
  simp only [if_neg (show ¬ (t.num_pages + 1 ≤ page_num) by omega)]
  simp only [if_neg (show ¬ (t.num_pages + 1 ≤ (t.pages page_num).parent_page_num) by omega)]

lemma splitOld3_fields (t : TableM) (page_num cell_num key : Nat) (value : Row) :
    (splitOld3 t page_num cell_num key value).num_cells = LEAF_NODE_LEFT_SPLIT_COUNT ∧
    (splitOld3 t page_num cell_num key value).next_leaf = t.num_pages ∧
    (splitOld3 t page_num cell_num key value).node_type = (t.pages page_num).node_type ∧
    (splitOld3 t page_num cell_num key value).is_root = (t.pages page_num).is_root ∧
    (splitOld3 t page_num cell_num key value).parent_page_num =
      (t.pages page_num).parent_page_num := by
  have h := copy_page_data_fields (revRange 0 LEAF_NODE_LEFT_SPLIT_COUNT)
    (t.pages page_num) (t.pages page_num) true key value cell_num
  simp [splitOld3, Page.set_leaf_node_num_cells, Page.set_leaf_node_next_leaf,
    h.1, h.2.1, h.2.2.1]

lemma splitOld3_cells (t : TableM) (page_num cell_num key : Nat) (value : Row) :
    ∀ j, j < LEAF_NODE_LEFT_SPLIT_COUNT →
      (splitOld3 t page_num cell_num key value).cells j =
        (if j = cell_num then (key, serialize_row value)
         else if j > cell_num then (t.pages page_num).cells (j - 1)
         else (t.pages page_num).cells j) := by
  intro j hj
  have : (splitOld3 t page_num cell_num key value).cells j =
      (copy_page_data (revRange 0 LEAF_NODE_LEFT_SPLIT_COUNT) (t.pages page_num)
        (t.pages page_num) true key value cell_num).cells j := by
    simp [splitOld3, Page.set_leaf_node_num_cells, Page.set_leaf_node_next_leaf]
  rw [this, copy_old_cells _ _ _ _ j hj]

lemma splitNew3_fields (t : TableM) (page_num cell_num key : Nat) (value : Row) :
    (splitNew3 t page_num cell_num key value).num_cells = LEAF_NODE_RIGHT_SPLIT_COUNT ∧
    (splitNew3 t page_num cell_num key value).next_leaf = (t.pages page_num).next_leaf ∧
    (splitNew3 t page_num cell_num key value).node_type = NodeType.NODE_LEAF ∧
    (splitNew3 t page_num cell_num key value).is_root = false ∧
    (splitNew3 t page_num cell_num key value).parent_page_num =
      (t.pages page_num).parent_page_num := by
  have h := copy_page_data_fields
    (revRange LEAF_NODE_LEFT_SPLIT_COUNT (LEAF_NODE_MAX_CELLS + 1))
    (t.pages page_num) (splitNew1 t page_num) false key value cell_num
  refine ⟨?_, ?_, ?_, ?_, ?_⟩
  · simp [splitNew3, Page.set_leaf_node_num_cells]
  · simp only [splitNew3, Page.set_leaf_node_num_cells]
    rw [h.2.2.2.2.1]
    simp [splitNew1, Page.set_leaf_node_next_leaf, Page.set_node_parent,
      Page.init_leaf_node, Page.get_leaf_node_next_leaf]
  · simp only [splitNew3, Page.set_leaf_node_num_cells]
    rw [h.1]
    simp [splitNew1, Page.set_leaf_node_next_leaf, Page.set_node_parent,
      Page.init_leaf_node]
  · simp only [splitNew3, Page.set_leaf_node_num_cells]
    rw [h.2.1]
    simp [splitNew1, Page.set_leaf_node_next_leaf, Page.set_node_parent,
      Page.init_leaf_node]
  · simp only [splitNew3, Page.set_leaf_node_num_cells]
    rw [h.2.2.1]
    simp [splitNew1, Page.set_leaf_node_next_leaf, Page.set_node_parent,
      Page.init_leaf_node, Page.get_node_parent]

lemma splitNew3_cells (t : TableM) (page_num cell_num key : Nat) (value : Row) :
    ∀ j, j < LEAF_NODE_RIGHT_SPLIT_COUNT →
      (splitNew3 t page_num cell_num key value).cells j =
        (if j + LEAF_NODE_LEFT_SPLIT_COUNT = cell_num then (key, serialize_row value)
         else if j + LEAF_NODE_LEFT_SPLIT_COUNT > cell_num then
           (t.pages page_num).cells (j + LEAF_NODE_LEFT_SPLIT_COUNT - 1)
         else (t.pages page_num).cells (j + LEAF_NODE_LEFT_SPLIT_COUNT)) := by
  intro j hj
  have : (splitNew3 t page_num cell_num key value).cells j =
      (copy_page_data (revRange LEAF_NODE_LEFT_SPLIT_COUNT (LEAF_NODE_MAX_CELLS + 1))
        (t.pages page_num) (splitNew1 t page_num) false key value cell_num).cells j := by
    simp [splitNew3, Page.set_leaf_node_num_cells]
  rw [this, copy_new_cells _ _ _ _ _ j hj]

lemma splitOld3_max (t : TableM) (page_num cell_num key : Nat) (value : Row)
    (htype : (t.pages page_num).node_type = NodeType.NODE_LEAF) :
    (splitOld3 t page_num cell_num key value).get_node_max_key =
      some (((splitOld3 t page_num cell_num key value).cells
        (LEAF_NODE_LEFT_SPLIT_COUNT - 1)).1) := by
  have hf := splitOld3_fields t page_num cell_num key value
  simp only [Page.get_node_max_key, hf.2.2.1, htype, hf.1]
  rw [if_neg (by decide)]

lemma splitNew3_max (t : TableM) (page_num cell_num key : Nat) (value : Row) :
    (splitNew3 t page_num cell_num key value).get_node_max_key =
      some (((splitNew3 t page_num cell_num key value).cells
        (LEAF_NODE_RIGHT_SPLIT_COUNT - 1)).1) := by
  have hf := splitNew3_fields t page_num cell_num key value
  simp only [Page.get_node_max_key, hf.2.2.1, hf.1]
  rw [if_neg (by decide)]

lemma splitOld3_list (t : TableM) (page_num cell_num key : Nat) (value : Row)
    (hfull : (t.pages page_num).num_cells = LEAF_NODE_MAX_CELLS)
    (hc : cell_num ≤ LEAF_NODE_MAX_CELLS) :
    leafCellList (splitOld3 t page_num cell_num key value) =
      (insertedCells (t.pages page_num) cell_num key value).take
        LEAF_NODE_LEFT_SPLIT_COUNT := by
  have hil : (insertedCells (t.pages page_num) cell_num key value).length =
      LEAF_NODE_MAX_CELLS + 1 := by
    rw [insertedCells_length _ _ _ _ (by omega), hfull]
  have e1 : LEAF_NODE_LEFT_SPLIT_COUNT = 7 := rfl
  have e2 : LEAF_NODE_MAX_CELLS = 13 := rfl
  apply List.ext_get
  · rw [leafCellList_length, (splitOld3_fields t page_num cell_num key value).1,
      List.length_take, hil]
    decide
  · intro j h1 h2
    have hj : j < LEAF_NODE_LEFT_SPLIT_COUNT := by
      rw [leafCellList_length, (splitOld3_fields t page_num cell_num key value).1] at h1
      exact h1
    rw [leafCellList_get _ _ h1, splitOld3_cells t page_num cell_num key value j hj]
    have hjlen : j < (insertedCells (t.pages page_num) cell_num key value).length := by
      rw [hil]
      omega
    have heqget : ((insertedCells (t.pages page_num) cell_num key value).take
        LEAF_NODE_LEFT_SPLIT_COUNT).get ⟨j, h2⟩ =
        (insertedCells (t.pages page_num) cell_num key value).get ⟨j, hjlen⟩ := by
      simp [List.getElem_take]
    rw [heqget, insertedCells_get _ _ _ _ (by omega) j hjlen]
    split_ifs <;> first | rfl | omega

lemma splitNew3_list (t : TableM) (page_num cell_num key : Nat) (value : Row)
    (hfull : (t.pages page_num).num_cells = LEAF_NODE_MAX_CELLS)
    (hc : cell_num ≤ LEAF_NODE_MAX_CELLS) :
    leafCellList (splitNew3 t page_num cell_num key value) =
      (insertedCells (t.pages page_num) cell_num key value).drop
        LEAF_NODE_LEFT_SPLIT_COUNT := by
  have hil : (insertedCells (t.pages page_num) cell_num key value).length =
      LEAF_NODE_MAX_CELLS + 1 := by
    rw [insertedCells_length _ _ _ _ (by omega), hfull]
  have e1 : LEAF_NODE_LEFT_SPLIT_COUNT = 7 := rfl
  have e2 : LEAF_NODE_MAX_CELLS = 13 := rfl
  have e3 : LEAF_NODE_RIGHT_SPLIT_COUNT = 7 := rfl
  apply List.ext_get
  · rw [leafCellList_length, (splitNew3_fields t page_num cell_num key value).1,
      List.length_drop, hil]
    decide
  · intro j h1 h2
    have hj : j < LEAF_NODE_RIGHT_SPLIT_COUNT := by
      rw [leafCellList_length, (splitNew3_fields t page_num cell_num key value).1] at h1
      exact h1
    rw [leafCellList_get _ _ h1, splitNew3_cells t page_num cell_num key value j hj]
    have hjlen : LEAF_NODE_LEFT_SPLIT_COUNT + j <
        (insertedCells (t.pages page_num) cell_num key value).length := by
      rw [hil]
      omega
    have heqget : ((insertedCells (t.pages page_num) cell_num key value).drop
        LEAF_NODE_LEFT_SPLIT_COUNT).get ⟨j, h2⟩ =
        (insertedCells (t.pages page_num) cell_num key value).get
          ⟨LEAF_NODE_LEFT_SPLIT_COUNT + j, hjlen⟩ := by
      simp [List.getElem_drop]
    rw [heqget, insertedCells_get _ _ _ _ (by omega) _ hjlen]
    have hco : LEAF_NODE_LEFT_SPLIT_COUNT + j = j + LEAF_NODE_LEFT_SPLIT_COUNT :=
      Nat.add_comm _ _
    rw [hco]
    split_ifs <;> first | rfl | omega

/-- C2.  For every non-root leaf at capacity (`num_cells = LEAF_NODE_MAX_CELLS`)
and every new key/row not present in it, inserting through the cursor
position delivered by `find` splits the leaf:  afterwards the old leaf holds
`LEAF_NODE_LEFT_SPLIT_COUNT` cells, the new leaf (at the freshly allocated
page `num_pages`) holds `LEAF_NODE_RIGHT_SPLIT_COUNT` cells, together their
cells are exactly the old cells with the new cell inserted (so the multiset
of cells is the old cells plus the new one), keys are strictly ascending
within each leaf and across the pair, the new leaf inherits the old leaf's
former `next_leaf_page_num` and parent, and the old leaf's
`next_leaf_page_num` points to the new leaf.  (When the old leaf is the
root, `create_new_node` additionally relocates the left half - claim C4.) -/
theorem leaf_split_spec
    (t : TableM) (page_num cell_num key : Nat) (value : Row)
    (hb1 : page_num ≤ TABLE_MAX_PAGES) (hb2 : page_num < t.num_pages)
    (hnp : t.num_pages ≤ TABLE_MAX_PAGES)
    (htype : (t.pages page_num).node_type = NodeType.NODE_LEAF)
    (hroot : (t.pages page_num).is_root = false)
    (hfull : (t.pages page_num).num_cells = LEAF_NODE_MAX_CELLS)
    (hsorted : ∀ i j, i < j → j < (t.pages page_num).num_cells →
      ((t.pages page_num).cells i).1 < ((t.pages page_num).cells j).1)
    (hcell : cell_num = (t.pages page_num).leaf_node_find key)
    (hfresh : ∀ i, i < (t.pages page_num).num_cells → ((t.pages page_num).cells i).1 ≠ key)
    (hppb : (t.pages page_num).parent_page_num ≤ TABLE_MAX_PAGES)
    (hppn : (t.pages page_num).parent_page_num < t.num_pages)
    (hppne1 : (t.pages page_num).parent_page_num ≠ page_num)
    (hpkeys : (t.pages ((t.pages page_num).parent_page_num)).num_keys < INTERNAL_NODE_MAX_CELLS)
    (hrcb : (t.pages ((t.pages page_num).parent_page_num)).right_child ≤ TABLE_MAX_PAGES)
    (hrcne1 : (t.pages ((t.pages page_num).parent_page_num)).right_child ≠
      (t.pages page_num).parent_page_num)
    (hrcne2 : (t.pages ((t.pages page_num).parent_page_num)).right_child ≠ t.num_pages)
    (hrcmax : (t.pages ((t.pages page_num).parent_page_num)).right_child = page_num ∨
      ((t.pages ((t.pages page_num).parent_page_num)).right_child ≠ page_num ∧
       ((t.pages ((t.pages (t.pages page_num).parent_page_num).right_child)).get_node_max_key).isSome = true)) :
    ∃ t2, t.leaf_node_split_and_insert page_num cell_num key value = some t2 ∧
      (t2.pages page_num).num_cells = LEAF_NODE_LEFT_SPLIT_COUNT ∧
      leafCellList (t2.pages page_num) =
        (insertedCells (t.pages page_num) cell_num key value).take LEAF_NODE_LEFT_SPLIT_COUNT ∧
      (t2.pages page_num).next_leaf = t.num_pages ∧
      (t2.pages page_num).node_type = NodeType.NODE_LEAF ∧
      (t2.pages t.num_pages).num_cells = LEAF_NODE_RIGHT_SPLIT_COUNT ∧
      leafCellList (t2.pages t.num_pages) =
        (insertedCells (t.pages page_num) cell_num key value).drop LEAF_NODE_LEFT_SPLIT_COUNT ∧
      (t2.pages t.num_pages).node_type = NodeType.NODE_LEAF ∧
      (t2.pages t.num_pages).is_root = false ∧
      (t2.pages t.num_pages).parent_page_num = (t.pages page_num).parent_page_num ∧
      (t2.pages t.num_pages).next_leaf = (t.pages page_num).next_leaf ∧
      leafCellList (t2.pages page_num) ++ leafCellList (t2.pages t.num_pages) =
        insertedCells (t.pages page_num) cell_num key value ∧
      List.Perm (insertedCells (t.pages page_num) cell_num key value)
        ((key, serialize_row value) :: leafCellList (t.pages page_num)) ∧
      List.Pairwise (· < ·)
        ((insertedCells (t.pages page_num) cell_num key value).map Prod.fst) := by
  -- binary-search bracket facts
  have hspec := leaf_node_find_spec (t.pages page_num) key hsorted
  rw [← hcell] at hspec
  have hcf : cell_num ≤ LEAF_NODE_MAX_CELLS := by rw [← hfull]; exact hspec.1
  have hbr : (∀ j, j < cell_num → ((t.pages page_num).cells j).1 < key) ∧
      (cell_num = (t.pages page_num).num_cells ∨
       (cell_num < (t.pages page_num).num_cells ∧
        key < ((t.pages page_num).cells cell_num).1)) := by
    rcases hspec.2 with hfound | hother
    · exact absurd hfound.2 (hfresh cell_num hfound.1)
    · exact hother
  have hlow : ∀ j, j < cell_num → ((t.pages page_num).cells j).1 < key := hbr.1
  have hhigh : ∀ j, cell_num ≤ j → j < (t.pages page_num).num_cells →
      key < ((t.pages page_num).cells j).1 := by
    intro j h1 h2
    rcases hbr.2 with hend | ⟨hlt, hgt⟩
    · omega
    · rcases Nat.eq_or_lt_of_le h1 with heq | hlt2
      · exact heq ▸ hgt
      · exact lt_trans hgt (hsorted cell_num j hlt2 h2)
  -- reduce the split to an internal_node_insert on the explicit state
  have hmax : (t.pages page_num).get_node_max_key =
      some (((t.pages page_num).cells (LEAF_NODE_MAX_CELLS - 1)).1) := by
    simp only [Page.get_node_max_key, htype, hfull]
    rw [if_neg (by decide)]
  have hnewmax := splitOld3_max t page_num cell_num key value htype
  have hred := leaf_split_reduce t page_num cell_num key value _ _ hb1 hb2 hnp hroot hmax
    hppb hppn hppne1 hnewmax
  rw [hred]
  -- the state passed to internal_node_insert
  set T7 := (((({ t with num_pages := t.num_pages + 1 }).setPage t.num_pages
      (splitNew3 t page_num cell_num key value)).setPage page_num
      (splitOld3 t page_num cell_num key value)).setPage
    ((t.pages page_num).parent_page_num)
    ((t.pages ((t.pages page_num).parent_page_num)).update_internal_node_key
      (((t.pages page_num).cells (LEAF_NODE_MAX_CELLS - 1)).1)
      (((splitOld3 t page_num cell_num key value).cells
        (LEAF_NODE_LEFT_SPLIT_COUNT - 1)).1))) with hT7
  have hT7pages : ∀ q, T7.pages q =
      (if q = (t.pages page_num).parent_page_num then
        ((t.pages ((t.pages page_num).parent_page_num)).update_internal_node_key
          (((t.pages page_num).cells (LEAF_NODE_MAX_CELLS - 1)).1)
          (((splitOld3 t page_num cell_num key value).cells
            (LEAF_NODE_LEFT_SPLIT_COUNT - 1)).1))
       else if q = page_num then splitOld3 t page_num cell_num key value
       else if q = t.num_pages then splitNew3 t page_num cell_num key value
       else t.pages q) := by
    intro q
    simp [hT7, TableM.setPage]
  have hT7num : T7.num_pages = t.num_pages + 1 := by simp [hT7, TableM.setPage]
  have hnppne : t.num_pages ≠ (t.pages page_num).parent_page_num := by omega
  have hT7new : T7.pages t.num_pages = splitNew3 t page_num cell_num key value := by
    rw [hT7pages]
    rw [if_neg hnppne, if_neg (by omega), if_pos rfl]
  have hT7old : T7.pages page_num = splitOld3 t page_num cell_num key value := by
    rw [hT7pages]
    rw [if_neg (fun h => hppne1 h.symm), if_pos rfl]
  have hT7pp : T7.pages ((t.pages page_num).parent_page_num) =
      ((t.pages ((t.pages page_num).parent_page_num)).update_internal_node_key
        (((t.pages page_num).cells (LEAF_NODE_MAX_CELLS - 1)).1)
        (((splitOld3 t page_num cell_num key value).cells
          (LEAF_NODE_LEFT_SPLIT_COUNT - 1)).1)) := by
    rw [hT7pages]
    rw [if_pos rfl]
  have hupd_keys : (T7.pages ((t.pages page_num).parent_page_num)).num_keys =
      (t.pages ((t.pages page_num).parent_page_num)).num_keys := by
    rw [hT7pp]
    simp [Page.update_internal_node_key, Page.set_internal_node_key]
  have hupd_rc : (T7.pages ((t.pages page_num).parent_page_num)).right_child =
      (t.pages ((t.pages page_num).parent_page_num)).right_child := by
    rw [hT7pp]
    simp [Page.update_internal_node_key, Page.set_internal_node_key]
  obtain ⟨t2, hins, hframe, hroot2, hnum2⟩ := internal_node_insert_success T7
    ((t.pages page_num).parent_page_num) t.num_pages
    (((splitNew3 t page_num cell_num key value).cells (LEAF_NODE_RIGHT_SPLIT_COUNT - 1)).1)
    hppb (by omega) hnp
    (by rw [hT7new]; exact splitNew3_max t page_num cell_num key value)
    (by rw [hupd_keys]; exact hpkeys)
    (by rw [hupd_rc]; exact hrcb)
    (by rw [hupd_rc]; exact hrcne1)
    (by
      rw [hupd_rc, hT7pages]
      rw [if_neg hrcne1]
      rcases hrcmax with hrceq | ⟨hrcne3, hrcsome⟩
      · rw [if_pos hrceq, hnewmax]
        rfl
      · rw [if_neg hrcne3, if_neg hrcne2, hrcsome])
  refine ⟨t2, hins, ?_⟩
  have h2old : t2.pages page_num = splitOld3 t page_num cell_num key value := by
    rw [hframe page_num (fun h => hppne1 h.symm), hT7old]
  have h2new : t2.pages t.num_pages = splitNew3 t page_num cell_num key value := by
    rw [hframe t.num_pages hnppne, hT7new]
  have hfo := splitOld3_fields t page_num cell_num key value
  have hfn := splitNew3_fields t page_num cell_num key value
  have hlo := splitOld3_list t page_num cell_num key value hfull hcf
  have hln := splitNew3_list t page_num cell_num key value hfull hcf
  refine ⟨?_, ?_, ?_, ?_, ?_, ?_, ?_, ?_, ?_, ?_, ?_, ?_, ?_⟩
  · rw [h2old]; exact hfo.1
  · rw [h2old]; exact hlo
  · rw [h2old]; exact hfo.2.1
  · rw [h2old, hfo.2.2.1]; exact htype
  · rw [h2new]; exact hfn.1
  · rw [h2new]; exact hln
  · rw [h2new]; exact hfn.2.2.1
  · rw [h2new]; exact hfn.2.2.2.1
  · rw [h2new]; exact hfn.2.2.2.2
  · rw [h2new]; exact hfn.2.1
  · rw [h2old, h2new, hlo, hln, List.take_append_drop]
  · exact insertedCells_perm (t.pages page_num) cell_num key value
  · exact insertedCells_sorted (t.pages page_num) cell_num key value (by omega) hsorted
      hlow hhigh

/-! ## Concrete states used as witnesses and counterexamples -/

/-- A row with the given id and one-byte strings (well within field widths). -/
def mkRow (n : Nat) : Row := { id := n, username := [117], email := [101] }

/-- A concrete leaf page holding the given keys. -/
def mkLeaf (ks : List Nat) (next parent : Nat) (root : Bool) : Page :=
  { Page.new with
    node_type := .NODE_LEAF
    is_root := root
    parent_page_num := parent
    num_cells := ks.length
    next_leaf := next
    cells := fun i => (ks.getD i 0, SerRow.zero) }

/-- Witness state for C2: a root internal node over a full leaf (page 1) and
a one-cell leaf (page 2). -/
def T2 : TableM :=
  { pages := fun p =>
      if p = 0 then
        { Page.new with
          node_type := .NODE_INTERNAL
          is_root := true
          num_keys := 1
          right_child := 2
          icells := fun i => if i = 0 then (1, 130) else (0, 0) }
      else if p = 1 then mkLeaf [10, 20, 30, 40, 50, 60, 70, 80, 90, 100, 110, 120, 130] 2 0 false
      else if p = 2 then mkLeaf [200] 0 0 false
      else Page.new
    num_pages := 3
    root_page_num := 0 }

/-- Witness for C2: splitting the full leaf of `T2` with key 15. -/
theorem leaf_split_spec_witness :
    ∃ t2, T2.leaf_node_split_and_insert 1 1 15 (mkRow 15) = some t2 ∧
      (t2.pages 1).num_cells = LEAF_NODE_LEFT_SPLIT_COUNT ∧
      leafCellList (t2.pages 1) =
        (insertedCells (T2.pages 1) 1 15 (mkRow 15)).take LEAF_NODE_LEFT_SPLIT_COUNT ∧
      (t2.pages 1).next_leaf = T2.num_pages ∧
      (t2.pages 1).node_type = NodeType.NODE_LEAF ∧
      (t2.pages T2.num_pages).num_cells = LEAF_NODE_RIGHT_SPLIT_COUNT ∧
      leafCellList (t2.pages T2.num_pages) =
        (insertedCells (T2.pages 1) 1 15 (mkRow 15)).drop LEAF_NODE_LEFT_SPLIT_COUNT ∧
      (t2.pages T2.num_pages).node_type = NodeType.NODE_LEAF ∧
      (t2.pages T2.num_pages).is_root = false ∧
      (t2.pages T2.num_pages).parent_page_num = (T2.pages 1).parent_page_num ∧
      (t2.pages T2.num_pages).next_leaf = (T2.pages 1).next_leaf ∧
      leafCellList (t2.pages 1) ++ leafCellList (t2.pages T2.num_pages) =
        insertedCells (T2.pages 1) 1 15 (mkRow 15) ∧
      List.Perm (insertedCells (T2.pages 1) 1 15 (mkRow 15))
        ((15, serialize_row (mkRow 15)) :: leafCellList (T2.pages 1)) ∧
      List.Pairwise (· < ·)
        ((insertedCells (T2.pages 1) 1 15 (mkRow 15)).map Prod.fst) := by
  apply leaf_split_spec T2 1 1 15 (mkRow 15) (by decide) (by decide) (by decide)
    (by decide) (by decide) (by decide) ?_ (by decide) ?_ (by decide) (by decide)
    (by decide) (by decide) (by decide) (by decide) (by decide) ?_
  · intro i j hij hj
    have hj13 : j < 13 := hj
    interval_cases j <;> interval_cases i <;> decide
  · intro i hi
    have hi13 : i < 13 := hi
    interval_cases i <;> decide
  · right
    exact ⟨by decide, by decide⟩

/-! ## Frame lemmas: no operation changes `root_page_num` -/

lemma get_page_eq {t : TableM} {p : Nat} {pg : Page} {t1 : TableM}
    (h : t.get_page p = some (pg, t1)) :
    pg = t.pages p ∧ t1.pages = t.pages ∧ t1.root_page_num = t.root_page_num := by
  unfold TableM.get_page at h
  split at h
  · exact absurd h (by simp)
  · injection h with h2
    injection h2 with h3 h4
    subst h3
    subst h4
    exact ⟨rfl, rfl, rfl⟩

lemma internal_node_insert_root (t : TableM) (a b : Nat) (t2 : TableM)
    (h : t.internal_node_insert a b = some t2) : t2.root_page_num = t.root_page_num := by
  unfold TableM.internal_node_insert at h
  split at h
  · exact absurd h (by simp)
  split at h
  · exact absurd h (by simp)
  split at h
  · exact absurd h (by simp)
  next parent t1 heq1 =>
  simp only [ge_iff_le] at h
  split at h
  · exact absurd h (by simp)
  split at h
  · exact absurd h (by simp)
  split at h
  · exact absurd h (by simp)
  · split at h
    · split at h
      · exact absurd h (by simp)
      next p2 t3 heq2 =>
      split at h
      · exact absurd h (by simp)
      · injection h with h2
        subst h2
        have e1 := (get_page_eq heq1).2.2
        have e2 := (get_page_eq heq2).2.2
        simp [TableM.setPage] at e2 ⊢
        rw [e2, e1]
    · split at h
      · exact absurd h (by simp)
      next p2 t3 heq2 =>
      split at h
      · exact absurd h (by simp)
      · injection h with h2
        subst h2
        have e1 := (get_page_eq heq1).2.2
        have e2 := (get_page_eq heq2).2.2
        simp [TableM.setPage] at e2 ⊢
        rw [e2, e1]

lemma create_new_node_root (t : TableM) (a b : Nat) (t2 : TableM)
    (h : t.create_new_node a b = some t2) : t2.root_page_num = t.root_page_num := by
  unfold TableM.create_new_node at h
  simp only [TableM.get_unused_page_num] at h
  split at h
  · exact absurd h (by simp)
  split at h
  · exact absurd h (by simp)
  next x1 t1 heq1 =>
  split at h
  · exact absurd h (by simp)
  split at h
  · exact absurd h (by simp)
  next old2 t3 heq2 =>
  split at h
  · exact absurd h (by simp)
  split at h
  · exact absurd h (by simp)
  next lc t5 heq3 =>
  split at h
  · exact absurd h (by simp)
  next rc t7 heq4 =>
  injection h with h2
  subst h2
  have e1 := (get_page_eq heq1).2.2
  have e2 := (get_page_eq heq2).2.2
  have e3 := (get_page_eq heq3).2.2
  have e4 := (get_page_eq heq4).2.2
  simp only [TableM.setPage] at e2 e3 e4 ⊢
  rw [e4, e3, e2, e1]

lemma leaf_node_split_and_insert_root (t : TableM) (a c key : Nat) (value : Row)
    (t2 : TableM) (h : t.leaf_node_split_and_insert a c key value = some t2) :
    t2.root_page_num = t.root_page_num := by
  unfold TableM.leaf_node_split_and_insert at h
  simp only [TableM.get_unused_page_num] at h
  split at h
  · exact absurd h (by simp)
  split at h
  · exact absurd h (by simp)
  split at h
  · exact absurd h (by simp)
  next x1 t1 heq1 =>
  split at h
  · exact absurd h (by simp)
  next oldb t3 heq2 =>
  split at h
  · -- root case: create_new_node
    have e1 := (get_page_eq heq1).2.2
    have e2 := (get_page_eq heq2).2.2
    have e3 := create_new_node_root _ _ _ _ h
    simp only [TableM.setPage] at e2 e3 ⊢
    rw [e3, e2, e1]
  · split at h
    · exact absurd h (by simp)
    next old4 t5 heq3 =>
    split at h
    · exact absurd h (by simp)
    split at h
    · exact absurd h (by simp)
    next parent t6 heq4 =>
    have e1 := (get_page_eq heq1).2.2
    have e2 := (get_page_eq heq2).2.2
    have e3 := (get_page_eq heq3).2.2
    have e4 := (get_page_eq heq4).2.2
    have e5 := internal_node_insert_root _ _ _ _ h
    simp only [TableM.setPage] at e2 e3 e4 e5 ⊢
    rw [e5, e4, e3, e2, e1]

lemma leaf_node_insert_root (t : TableM) (a c key : Nat) (value : Row)
    (t2 : TableM) (h : t.leaf_node_insert a c key value = some t2) :
    t2.root_page_num = t.root_page_num := by
  unfold TableM.leaf_node_insert at h
  simp only [ge_iff_le] at h
  split at h
  · exact absurd h (by simp)
  next page t1 heq1 =>
  split at h
  · have e1 := (get_page_eq heq1).2.2
    have e2 := leaf_node_split_and_insert_root _ _ _ _ _ _ h
    rw [e2, e1]
  · injection h with h2
    subst h2
    have e1 := (get_page_eq heq1).2.2
    simp [TableM.setPage]
    exact e1

lemma execute_insert_root (t : TableM) (fuel : Nat) (row : Row)
    (r : ExecuteResult) (t2 : TableM) (h : t.execute_insert fuel row = some (r, t2)) :
    t2.root_page_num = t.root_page_num := by
  unfold TableM.execute_insert at h
  split at h
  · exact absurd h (by simp)
  split at h
  · exact absurd h (by simp)
  next page t1 heq1 =>
  split at h
  · injection h with h2
    injection h2 with h3 h4
    subst h4
    exact (get_page_eq heq1).2.2
  · split at h
    · exact absurd h (by simp)
    · injection h with h2
      injection h2 with h3 h4
      subst h4
      have e1 := (get_page_eq heq1).2.2
      have e2 := leaf_node_insert_root _ _ _ _ _ _ (by assumption)
      rw [e2, e1]

lemma set_node_root_max (p : Page) (b : Bool) :
    (p.set_node_root b).get_node_max_key = p.get_node_max_key := rfl

/-- C4.  Whenever the root leaf splits, `create_new_node` reinitializes the
root page in place as an internal node with `is_root = true` and
`num_keys = 1`; `child[0]` is the newly allocated page (`num_pages`) holding
a copy of the old root with `is_root` cleared (and its parent re-pointed at
the root), `key[0]` equals that left child's max key, `right_child` is the
page produced by the leaf split, both children's parent pointers equal
`root_page_num`, and `Table.root_page_num` is unchanged by this and by every
`execute_insert`. -/
theorem create_new_node_spec (t : TableM) (page_num right_child_page_num : Nat) (mk : Nat)
    (hpn : page_num = t.root_page_num)
    (hb1 : page_num ≤ TABLE_MAX_PAGES) (hb2 : page_num < t.num_pages)
    (hnp : t.num_pages ≤ TABLE_MAX_PAGES)
    (hrb : right_child_page_num ≤ TABLE_MAX_PAGES)
    (hrn : right_child_page_num < t.num_pages)
    (hrne : right_child_page_num ≠ page_num)
    (hmax : (t.pages page_num).get_node_max_key = some mk) :
    ∃ t4, t.create_new_node page_num right_child_page_num = some t4 ∧
      t4.pages t.num_pages =
        (((t.pages page_num).set_node_root false).set_node_parent t.root_page_num) ∧
      (t4.pages t.num_pages).get_node_max_key = some mk ∧
      (t4.pages page_num).node_type = NodeType.NODE_INTERNAL ∧
      (t4.pages page_num).is_root = true ∧
      (t4.pages page_num).num_keys = 1 ∧
      (t4.pages page_num).icells 0 = (t.num_pages, mk) ∧
      (t4.pages page_num).right_child = right_child_page_num ∧
      (t4.pages right_child_page_num).parent_page_num = t.root_page_num ∧
      (t4.pages t.num_pages).parent_page_num = t.root_page_num ∧
      t4.root_page_num = t.root_page_num ∧
      t4.num_pages = t.num_pages + 1 ∧
      (∀ (u : TableM) (fuel : Nat) (row : Row) (r : ExecuteResult) (u2 : TableM),
        u.execute_insert fuel row = some (r, u2) → u2.root_page_num = u.root_page_num) := by
  have hne1 : page_num ≠ t.num_pages := by omega
  have hne2 : right_child_page_num ≠ t.num_pages := by omega
  have hmax2 : ((t.pages page_num).set_node_root false).get_node_max_key = some mk := by
    rw [set_node_root_max]
    exact hmax
  simp only [TableM.create_new_node, TableM.get_unused_page_num,
    get_page_view_of_le hb1]
  simp only [TableM.get_page, if_neg (Nat.not_lt.mpr hnp), ge_iff_le, le_refl, if_pos,
    if_neg (Nat.not_lt.mpr hb1), if_neg (Nat.not_lt.mpr hrb), TableM.setPage]
  simp only [hmax2, if_neg hne1, if_pos rfl]
  simp only [Page.set_internal_node_child, Page.set_internal_node_num_keys,
    Page.set_node_root, Page.init_internal_node]
  rw [if_neg (by decide : ¬ ((0 : Nat) > 1)), if_neg (by decide : ¬ ((0 : Nat) = 1))]
  simp only [if_neg hne1, if_neg (show ¬ (t.num_pages + 1 ≤ page_num) by omega),
    if_neg (show ¬ (t.num_pages + 1 ≤ t.num_pages) by omega),
    if_neg (show ¬ (t.num_pages + 1 ≤ right_child_page_num) by omega),
    if_neg hrne, if_neg hne2]
  have hA : t.num_pages ≠ right_child_page_num := fun hx => hne2 hx.symm
  have hB : t.num_pages ≠ page_num := fun hx => hne1 hx.symm
  have hC : page_num ≠ right_child_page_num := fun hx => hrne hx.symm
  refine ⟨_, rfl, ?_, ?_, ?_, ?_, ?_, ?_, ?_, ?_, ?_, ?_, ?_, ?_⟩
  · simp [if_neg hA, if_neg hB, Page.set_node_parent, Page.set_node_root]
  · simp only [if_neg hA, if_neg hB, if_pos rfl, if_true]
    rw [show ∀ (p : Page) (x : Nat), (p.set_node_parent x).get_node_max_key =
      p.get_node_max_key from fun p x => rfl]
    exact hmax2
  · simp [if_neg hA, if_neg hB, if_neg hC, if_neg hrne, if_neg hne1, if_neg hne2,
      Page.set_internal_node_right_child, Page.set_internal_node_key,
      Page.set_internal_node_cell, Page.set_node_parent]
  · simp [if_neg hA, if_neg hB, if_neg hC, if_neg hrne, if_neg hne1, if_neg hne2,
      Page.set_internal_node_right_child, Page.set_internal_node_key,
      Page.set_internal_node_cell, Page.set_node_parent]
  · simp [if_neg hA, if_neg hB, if_neg hC, if_neg hrne, if_neg hne1, if_neg hne2,
      Page.set_internal_node_right_child, Page.set_internal_node_key,
      Page.set_internal_node_cell, Page.set_node_parent]
  · simp [if_neg hA, if_neg hB, if_neg hC, if_neg hrne, if_neg hne1, if_neg hne2,
      Page.set_internal_node_right_child, Page.set_internal_node_key,
      Page.set_internal_node_cell, Page.set_node_parent]
  · simp [if_neg hA, if_neg hB, if_neg hC, if_neg hrne, if_neg hne1, if_neg hne2,
      Page.set_internal_node_right_child, Page.set_internal_node_key,
      Page.set_internal_node_cell, Page.set_node_parent]
  · simp [if_neg hA, if_neg hB, if_neg hC, if_neg hrne, if_neg hne1, if_neg hne2,
      Page.set_internal_node_right_child, Page.set_internal_node_key,
      Page.set_internal_node_cell, Page.set_node_parent]
  · simp [if_neg hA, if_neg hB, if_neg hC, if_neg hrne, if_neg hne1, if_neg hne2,
      Page.set_internal_node_right_child, Page.set_internal_node_key,
      Page.set_internal_node_cell, Page.set_node_parent]
  · simp
  · simp
  · exact fun u fuel row r u2 h => execute_insert_root u fuel row r u2 h

/-- Witness state for C4: a root leaf (page 0) that has just split, with the
new right leaf already allocated at page 1. -/
def T4 : TableM :=
  { pages := fun p =>
      if p = 0 then mkLeaf [10] 1 0 true
      else if p = 1 then mkLeaf [20] 0 0 false
      else Page.new
    num_pages := 2
    root_page_num := 0 }

/-- Witness for C4 at the concrete split root `T4`. -/
theorem create_new_node_spec_witness :
    ((0 : Nat) = T4.root_page_num ∧ (0 : Nat) ≤ TABLE_MAX_PAGES ∧ 0 < T4.num_pages ∧
      T4.num_pages ≤ TABLE_MAX_PAGES ∧ (1 : Nat) ≤ TABLE_MAX_PAGES ∧ 1 < T4.num_pages ∧
      (1 : Nat) ≠ 0 ∧ (T4.pages 0).get_node_max_key = some 10) ∧
    (∃ t4, T4.create_new_node 0 1 = some t4 ∧
      t4.pages T4.num_pages =
        (((T4.pages 0).set_node_root false).set_node_parent T4.root_page_num) ∧
      (t4.pages T4.num_pages).get_node_max_key = some 10 ∧
      (t4.pages 0).node_type = NodeType.NODE_INTERNAL ∧
      (t4.pages 0).is_root = true ∧
      (t4.pages 0).num_keys = 1 ∧
      (t4.pages 0).icells 0 = (T4.num_pages, 10) ∧
      (t4.pages 0).right_child = 1 ∧
      (t4.pages 1).parent_page_num = T4.root_page_num ∧
      (t4.pages T4.num_pages).parent_page_num = T4.root_page_num ∧
      t4.root_page_num = T4.root_page_num ∧
      t4.num_pages = T4.num_pages + 1 ∧
      (∀ (u : TableM) (fuel : Nat) (row : Row) (r : ExecuteResult) (u2 : TableM),
        u.execute_insert fuel row = some (r, u2) → u2.root_page_num = u.root_page_num)) :=
  ⟨⟨rfl, by decide, by decide, by decide, by decide, by decide, by decide, rfl⟩,
   create_new_node_spec T4 0 1 10 rfl (by decide) (by decide) (by decide) (by decide)
     (by decide) (by decide) rfl⟩

/-! ## C5: duplicate-key insert -/

lemma Wf.sorted {t : TableM} {h page_num : Nat} {keys : List Nat}
    (hwf : Wf t h page_num keys) : List.Pairwise (· < ·) keys := by
  cases hwf
  case leaf => assumption
  case internal => assumption

/-- C5.  For every well-formed table and every row whose id is already
stored, `execute_insert` returns `EXECUTE_DUPLICATE_KEY` and leaves the
entire table state unchanged (the returned table is `t` itself, so no page
bytes are modified and no page is allocated), a subsequent scan yields
exactly the rows present before the call, and exactly one stored key equals
that id. -/
theorem execute_insert_duplicate_key (t : TableM) (fuel h : Nat) (keys : List Nat)
    (row : Row) (hwf : Wf t h t.root_page_num keys) (hfuel : h < fuel)
    (hmem : row.id ∈ keys) :
    ∃ t2, t.execute_insert fuel row = some (ExecuteResult.EXECUTE_DUPLICATE_KEY, t2) ∧
      t2 = t ∧
      (∀ sfuel, t2.execute_select sfuel = t.execute_select sfuel) ∧
      t2.num_pages = t.num_pages ∧
      t2.pages = t.pages ∧
      keys.count row.id = 1 := by
  obtain ⟨lp, c, hfind, hb1, hb2, htype, hle, hdisj, hmemspec⟩ :=
    find_by_page_num_wf_spec fuel t h t.root_page_num keys row.id hwf hfuel
  obtain ⟨hclt, hckey⟩ := hmemspec hmem
  have hroot := (Wf.bound hwf).1
  have hfind2 : t.find fuel row.id = some (lp, c) := by
    unfold TableM.find
    rw [get_page_view_of_le hroot]
    exact hfind
  have hget : t.get_page lp = some (t.pages lp, t) := by
    unfold TableM.get_page
    rw [if_neg (Nat.not_lt.mpr hb1), if_neg (Nat.not_le.mpr hb2)]
  have hcount : keys.count row.id = 1 := by
    apply List.count_eq_one_of_mem _ hmem
    exact (Wf.sorted hwf).imp (fun hab => Nat.ne_of_lt hab)
  refine ⟨t, ?_, rfl, fun _ => rfl, rfl, rfl, hcount⟩
  unfold TableM.execute_insert
  rw [hfind2]
  simp only [hget]
  rw [if_pos ⟨hclt, hckey⟩]

/-- Witness state for C5: a single root leaf holding keys 10 and 20. -/
def T5 : TableM :=
  { pages := fun _ => mkLeaf [10, 20] 0 0 true, num_pages := 1, root_page_num := 0 }

lemma T5_wf : Wf T5 0 T5.root_page_num [10, 20] := by
  apply Wf.leaf
  · decide
  · decide
  · rfl
  · rfl
  · intro i hi
    have hi2 : i < 2 := hi
    interval_cases i <;> rfl
  · decide

/-- Witness for C5: inserting id 10 into `T5`, which already holds it. -/
theorem execute_insert_duplicate_key_witness :
    (0 < 1 ∧ (mkRow 10).id ∈ [10, 20]) ∧
    (∃ t2, T5.execute_insert 1 (mkRow 10) = some (ExecuteResult.EXECUTE_DUPLICATE_KEY, t2) ∧
      t2 = T5 ∧
      (∀ sfuel, t2.execute_select sfuel = T5.execute_select sfuel) ∧
      t2.num_pages = T5.num_pages ∧
      t2.pages = T5.pages ∧
      List.count (mkRow 10).id [10, 20] = 1) :=
  ⟨⟨by decide, by decide⟩,
   execute_insert_duplicate_key T5 1 0 [10, 20] (mkRow 10) T5_wf (by decide) (by decide)⟩

/-! ## C3: the internal-node shift loop is broken -/

/-- C3 counterexample state: root internal node (page 0) holding keys
`(2, 16)` and `(1, 77)` with right child 3; page 4 (a leaf with max key 70)
is the child about to be inserted between them. -/
def pr3 : Page :=
  { Page.new with
    node_type := .NODE_INTERNAL
    is_root := true
    num_keys := 2
    right_child := 3
    icells := fun i => if i = 0 then (2, 16) else if i = 1 then (1, 77) else (0, 0) }

def T3 : TableM :=
  { pages := fun p =>
      if p = 0 then pr3
      else if p = 1 then mkLeaf [71, 77] 3 0 false
      else if p = 2 then mkLeaf [10, 16] 4 0 false
      else if p = 3 then mkLeaf [87, 140] 0 0 false
      else if p = 4 then mkLeaf [17, 70] 1 0 false
      else Page.new
    num_pages := 5
    root_page_num := 0 }

/-- C3.  Refutation of the shift behaviour: in `T3` the child max key is 70,
`find_child(70) = 1` and `old_num_keys = 2`, so the claimed shift would move
the cell `(1, 77)` from slot 1 to slot 2 and the result would hold cells
`(2,16), (4,70), (1,77)`.  The code's shift loop writes through
`leaf_node_cell` offsets, so on the internal-node state it moves nothing:
the result holds `(2,16), (4,70), (0,0)` - slot 2 keeps its garbage bytes,
and child page 1 (keys 71 and 77) is no longer referenced by any child
pointer of the parent. -/
theorem internal_node_insert_shift_bug :
    (T3.pages 0).num_keys = 2 ∧
    (T3.pages 0).internal_node_find_child 70 = 1 ∧
    (T3.pages 0).icells 1 = (1, 77) ∧
    (T3.internal_node_insert 0 4).isSome = true ∧
    ((T3.internal_node_insert 0 4).map (fun t =>
        ((t.pages 0).num_keys, (t.pages 0).icells 0, (t.pages 0).icells 1,
         (t.pages 0).icells 2, (t.pages 0).right_child))).getD (0, (0,0), (0,0), (0,0), 0) =
      (3, (2, 16), (4, 70), (0, 0), 3) ∧
    ¬ ((T3.internal_node_insert 0 4).map (fun t => (t.pages 0).icells 2)).getD (0, 0) =
      (1, 77) := by
  refine ⟨rfl, by decide, rfl, by decide, by decide, by decide⟩

/-! ## C6: internal capacity is a fatal exit, not EXECUTE_TABLE_FULL -/

/-- C6 counterexample state: root internal node (page 0) already holding
`INTERNAL_NODE_MAX_CELLS = 3` keys, whose first child (page 1) is a full
leaf, so the next insert of a small key needs an internal split. -/
def pr6 : Page :=
  { Page.new with
    node_type := .NODE_INTERNAL
    is_root := true
    num_keys := 3
    right_child := 4
    icells := fun i =>
      if i = 0 then (1, 130) else if i = 1 then (2, 200) else if i = 2 then (3, 300)
      else (0, 0) }

def T6 : TableM :=
  { pages := fun p =>
      if p = 0 then pr6
      else if p = 1 then mkLeaf [10, 20, 30, 40, 50, 60, 70, 80, 90, 100, 110, 120, 130] 2 0 false
      else if p = 2 then mkLeaf [200] 3 0 false
      else if p = 3 then mkLeaf [300] 4 0 false
      else if p = 4 then mkLeaf [400] 0 0 false
      else Page.new
    num_pages := 5
    root_page_num := 0 }

/-- C6 counterexample.  Inserting key 15 into `T6` forces a split of the
full leaf (page 1) whose parent already holds `INTERNAL_NODE_MAX_CELLS`
keys.  `internal_node_insert` then runs `process::exit(1)` (modelled as
`none`): the insert is fatal and in particular never returns
`EXECUTE_TABLE_FULL` to its caller. -/
theorem execute_insert_internal_full_fatal :
    (T6.pages 0).num_keys = INTERNAL_NODE_MAX_CELLS ∧
    (T6.pages 1).num_cells = LEAF_NODE_MAX_CELLS ∧
    T6.execute_insert 3 (mkRow 15) = none ∧
    ¬ ∃ t2, T6.execute_insert 3 (mkRow 15) = some (ExecuteResult.EXECUTE_TABLE_FULL, t2) := by
  have hnone : T6.execute_insert 3 (mkRow 15) = none := by rfl
  refine ⟨rfl, rfl, hnone, ?_⟩
  rintro ⟨t2, h2⟩
  rw [hnone] at h2
  exact Option.noConfusion h2

/-- C6 amended.  `execute_insert` can only ever return `EXECUTE_SUCCESS` or
`EXECUTE_DUPLICATE_KEY`: the `EXECUTE_TABLE_FULL` variant is never produced
(the internal-capacity path exits the process instead). -/
theorem execute_insert_never_table_full (t : TableM) (fuel : Nat) (row : Row)
    (r : ExecuteResult) (t2 : TableM)
    (h : t.execute_insert fuel row = some (r, t2)) :
    r ≠ ExecuteResult.EXECUTE_TABLE_FULL := by
  unfold TableM.execute_insert at h
  split at h
  · exact absurd h (by simp)
  split at h
  · exact absurd h (by simp)
  split at h
  · injection h with h2
    injection h2 with h3 h4
    subst h3
    decide
  · split at h
    · exact absurd h (by simp)
    · injection h with h2
      injection h2 with h3 h4
      subst h3
      decide

/-- Witness for the amended C6 theorem at a successful concrete insert. -/
theorem execute_insert_never_table_full_witness :
    ∃ r t2, db_open_fresh.execute_insert 2 (mkRow 1) = some (r, t2) ∧
      r ≠ ExecuteResult.EXECUTE_TABLE_FULL := by
  match hh : db_open_fresh.execute_insert 2 (mkRow 1) with
  | none => exact absurd (congrArg Option.isSome hh) (by decide)
  | some (r, t2) => exact ⟨r, t2, rfl, execute_insert_never_table_full _ _ _ _ _ hh⟩

/-! ## C7: a successful insert that breaks the leaf-chain ordering -/

/-- C7 failing input: 28 inserts (building a three-level tree through leaf
splits and the broken internal-node shift), then key 73. -/
def c7ids : List Nat :=
  [10, 20, 30, 40, 50, 60, 70, 80, 90, 100, 110, 120, 130, 140,
   81, 82, 83, 84, 85, 86, 87, 11, 12, 13, 14, 15, 16, 17]

def c7rows : List Row := c7ids.map mkRow

/-- The table after the 28 inserts of `c7rows` and then inserting key 73. -/
def c7final : Option TableM :=
  (run_inserts 12 c7rows db_open_fresh).bind (fun t =>
    (t.execute_insert 12 (mkRow 73)).map Prod.snd)

/-- The result code of the final insert of key 73. -/
def c7result : Option ExecuteResult :=
  (run_inserts 12 c7rows db_open_fresh).bind (fun t =>
    (t.execute_insert 12 (mkRow 73)).map Prod.fst)

/-- C7 counterexample.  Every insert in the sequence succeeds (the final one
with `EXECUTE_SUCCESS`), yet the subsequent scan of the leaf chain yields
key 73 between 86 and 87: the leaf linked list is not in ascending order, so
`execute_select` does not return rows in ascending id order.  (The broken
internal-node shift of C3 dropped a child during the earlier splits, so
`find` placed 73 into the wrong leaf.) -/
theorem scan_not_sorted_after_success :
    c7result = some ExecuteResult.EXECUTE_SUCCESS ∧
    (c7final.bind (fun t => t.scan_ids 50)).getD [] =
      [10, 11, 12, 13, 14, 15, 16, 17, 20, 30, 40, 50, 60, 70, 80, 81, 82, 83,
       84, 85, 86, 73, 87, 90, 100, 110, 120, 130, 140] ∧
    (c7final.bind (fun t => t.scan_ids 50)).isSome = true ∧
    ¬ List.Pairwise (· < ·) ((c7final.bind (fun t => t.scan_ids 50)).getD []) := by
  refine ⟨rfl, rfl, rfl, ?_⟩
  rw [show (c7final.bind (fun t => t.scan_ids 50)).getD [] =
    [10, 11, 12, 13, 14, 15, 16, 17, 20, 30, 40, 50, 60, 70, 80, 81, 82, 83,
     84, 85, 86, 73, 87, 90, 100, 110, 120, 130, 140] from rfl]
  decide

/-! ## Low-level pager model (`Pager`, main.rs:352-424) for C8 / C9

`PagerL` models the pager as the source lays it out: a `Vec` of exactly
`TABLE_MAX_PAGES` slots (`cache`, each `none` = unloaded), the backing file
as a partial map from page numbers to page images (`none` beyond the file's
end: a `read` there returns no bytes and leaves the fresh page zeroed), and
`num_pages`.  Both fetchers first run the source's bounds check
(`page_num > TABLE_MAX_PAGES` panics, `FetchRes.fatal`) and then access
`pages.as_ptr().offset(page_num)` - a raw-pointer access that is inside the
vector's allocation only when `page_num < cache.length`; an access past it
is undefined behaviour, `FetchRes.ub`.  `load_page` (main.rs:386) zeroes a
fresh page and, when `page_num <= num_pages`, reads one page from file
offset `page_num * PAGE_SIZE` into it. -/

inductive FetchRes (α : Type) where
  | fatal : FetchRes α
  | ub : FetchRes α
  | ok : α → FetchRes α
deriving DecidableEq

structure PagerL where
  file : Nat → Option Page
  cache : List (Option Page)
  num_pages : Nat

/-- The page image `load_page` produces (main.rs:386-403). -/
def PagerL.load_content (pg : PagerL) (page_num : Nat) : Page :=
  if page_num ≤ pg.num_pages then (pg.file page_num).getD Page.new else Page.new

/-- `Pager::get_page_view` (main.rs:370): loads a vacant slot in place but
never touches `num_pages`. -/
def PagerL.get_page_view (pg : PagerL) (page_num : Nat) : FetchRes (Page × PagerL) :=
  if page_num > TABLE_MAX_PAGES then .fatal
  else if h : page_num < pg.cache.length then
    match pg.cache.get ⟨page_num, h⟩ with
    | some p => .ok (p, pg)
    | none =>
      let p := pg.load_content page_num
      .ok (p, { pg with cache := pg.cache.set page_num (some p) })
  else .ub

/-- `Pager::get_page` (main.rs:405): on a vacant slot, loads it and bumps
`num_pages` when `page_num >= num_pages`. -/
def PagerL.get_page (pg : PagerL) (page_num : Nat) : FetchRes (Page × PagerL) :=
  if page_num > TABLE_MAX_PAGES then .fatal
  else if h : page_num < pg.cache.length then
    match pg.cache.get ⟨page_num, h⟩ with
    | some p => .ok (p, pg)
    | none =>
      let p := pg.load_content page_num
      .ok (p, { pg with
        cache := pg.cache.set page_num (some p)
        num_pages := if page_num ≥ pg.num_pages then pg.num_pages + 1 else pg.num_pages })
  else .ub

/-- A freshly opened pager over an empty file: all 100 slots vacant,
`num_pages = 0`. -/
def P8 : PagerL :=
  { file := fun _ => none
    cache := List.replicate TABLE_MAX_PAGES none
    num_pages := 0 }

/-- C8 counterexample.  On a fresh pager (`num_pages = 0`, all slots
vacant), fetching page 0 - so `page_num == num_pages` - through the read
view `get_page_view` constructs the zeroed page and installs it, but leaves
`num_pages` at 0 instead of incrementing it to 1. -/
theorem get_page_view_no_increment :
    P8.num_pages = 0 ∧
    P8.cache.get ⟨0, by decide⟩ = none ∧
    (∃ p pg2, P8.get_page_view 0 = FetchRes.ok (p, pg2) ∧ pg2.num_pages = 0) ∧
    ¬ ∃ p pg2, P8.get_page_view 0 = FetchRes.ok (p, pg2) ∧
        pg2.num_pages = P8.num_pages + 1 := by
  have hctor : P8.get_page_view 0 =
      FetchRes.ok (Page.new, { P8 with cache := P8.cache.set 0 (some Page.new) }) := by rfl
  refine ⟨rfl, rfl, ⟨_, _, hctor, rfl⟩, ?_⟩
  rintro ⟨p, pg2, h, hnp⟩
  rw [hctor] at h
  injection h with h2
  injection h2 with h3 h4
  subst h4
  exact absurd hnp (by decide)

/-- C8 amended.  For every pager state and every `page_num` inside the slot
array, both fetchers succeed; a filled slot is returned as-is with no state
change; a vacant slot is filled with a zeroed page that is read from file
offset `page_num * PAGE_SIZE` when the file holds it (`page_num ≤
num_pages`); `get_page_view` never changes `num_pages`, while `get_page`
increments it exactly when the slot was vacant and `page_num ≥ num_pages`
(in particular when `page_num = num_pages`). -/
theorem pager_fetch_spec (pg : PagerL) (page_num : Nat)
    (hb : page_num < pg.cache.length) (hmax : page_num ≤ TABLE_MAX_PAGES) :
    (∃ p pg2, pg.get_page_view page_num = FetchRes.ok (p, pg2) ∧
       pg2.file = pg.file ∧
       pg2.num_pages = pg.num_pages ∧
       (∀ q, pg.cache.get ⟨page_num, hb⟩ = some q → p = q ∧ pg2 = pg) ∧
       (pg.cache.get ⟨page_num, hb⟩ = none →
          p = (if page_num ≤ pg.num_pages then (pg.file page_num).getD Page.new
               else Page.new) ∧
          pg2.cache = pg.cache.set page_num (some p))) ∧
    (∃ p pg2, pg.get_page page_num = FetchRes.ok (p, pg2) ∧
       pg2.file = pg.file ∧
       (∀ q, pg.cache.get ⟨page_num, hb⟩ = some q → p = q ∧ pg2 = pg) ∧
       (pg.cache.get ⟨page_num, hb⟩ = none →
          p = (if page_num ≤ pg.num_pages then (pg.file page_num).getD Page.new
               else Page.new) ∧
          pg2.cache = pg.cache.set page_num (some p) ∧
          pg2.num_pages =
            (if page_num ≥ pg.num_pages then pg.num_pages + 1 else pg.num_pages) ∧
          (page_num = pg.num_pages → pg2.num_pages = pg.num_pages + 1))) := by
  have hgt : ¬ page_num > TABLE_MAX_PAGES := Nat.not_lt.mpr hmax
  constructor
  · unfold PagerL.get_page_view
    rw [if_neg hgt, dif_pos hb]
    cases hc : pg.cache.get ⟨page_num, hb⟩ with
    | some q =>
      refine ⟨q, pg, rfl, rfl, rfl, ?_, ?_⟩
      · intro q2 hq2
        injection hq2 with hq3
        exact ⟨hq3, rfl⟩
      · intro hn
        exact Option.noConfusion hn
    | none =>
      refine ⟨_, _, rfl, rfl, rfl, ?_, ?_⟩
      · intro q2 hq2
        exact Option.noConfusion hq2
      · intro hn
        exact ⟨rfl, rfl⟩
  · unfold PagerL.get_page
    rw [if_neg hgt, dif_pos hb]
    cases hc : pg.cache.get ⟨page_num, hb⟩ with
    | some q =>
      refine ⟨q, pg, rfl, rfl, ?_, ?_⟩
      · intro q2 hq2
        injection hq2 with hq3
        exact ⟨hq3, rfl⟩
      · intro hn
        exact Option.noConfusion hn
    | none =>
      refine ⟨_, _, rfl, rfl, ?_, ?_⟩
      · intro q2 hq2
        exact Option.noConfusion hq2
      · intro hn
        refine ⟨rfl, rfl, rfl, ?_⟩
        intro he
        simp [he]

/-- Witness for the amended C8 theorem at slot 0 of a fresh pager. -/
theorem pager_fetch_spec_witness :
    (0 < P8.cache.length ∧ (0 : Nat) ≤ TABLE_MAX_PAGES) ∧
    ((∃ p pg2, P8.get_page_view 0 = FetchRes.ok (p, pg2) ∧
       pg2.file = P8.file ∧
       pg2.num_pages = P8.num_pages ∧
       (∀ q, P8.cache.get ⟨0, by decide⟩ = some q → p = q ∧ pg2 = P8) ∧
       (P8.cache.get ⟨0, by decide⟩ = none →
          p = (if 0 ≤ P8.num_pages then (P8.file 0).getD Page.new else Page.new) ∧
          pg2.cache = P8.cache.set 0 (some p))) ∧
    (∃ p pg2, P8.get_page 0 = FetchRes.ok (p, pg2) ∧
       pg2.file = P8.file ∧
       (∀ q, P8.cache.get ⟨0, by decide⟩ = some q → p = q ∧ pg2 = P8) ∧
       (P8.cache.get ⟨0, by decide⟩ = none →
          p = (if 0 ≤ P8.num_pages then (P8.file 0).getD Page.new else Page.new) ∧
          pg2.cache = P8.cache.set 0 (some p) ∧
          pg2.num_pages =
            (if 0 ≥ P8.num_pages then P8.num_pages + 1 else P8.num_pages) ∧
          (0 = P8.num_pages → pg2.num_pages = P8.num_pages + 1)))) :=
  ⟨⟨by decide, by decide⟩, pager_fetch_spec P8 0 (by decide) (by decide)⟩

/-- C9 counterexample.  `page_num = TABLE_MAX_PAGES = 100` passes the
`page_num > TABLE_MAX_PAGES` check in both fetchers - so neither fails
fatally - but the slot array has exactly 100 slots, and the subsequent
raw-pointer access `pages.as_ptr().offset(100)` is one past the end of the
vector: undefined behaviour, not a returned page. -/
theorem get_page_boundary_oob :
    P8.cache.length = TABLE_MAX_PAGES ∧
    P8.get_page_view TABLE_MAX_PAGES ≠ FetchRes.fatal ∧
    P8.get_page TABLE_MAX_PAGES ≠ FetchRes.fatal ∧
    P8.get_page_view TABLE_MAX_PAGES = FetchRes.ub ∧
    P8.get_page TABLE_MAX_PAGES = FetchRes.ub ∧
    ¬ ∃ p pg2, P8.get_page_view TABLE_MAX_PAGES = FetchRes.ok (p, pg2) := by
  have h1 : P8.get_page_view TABLE_MAX_PAGES = FetchRes.ub := by rfl
  have h2 : P8.get_page TABLE_MAX_PAGES = FetchRes.ub := by rfl
  refine ⟨rfl, ?_, ?_, h1, h2, ?_⟩
  · rw [h1]
    exact fun hx => FetchRes.noConfusion hx
  · rw [h2]
    exact fun hx => FetchRes.noConfusion hx
  · rintro ⟨p, pg2, hx⟩
    rw [h1] at hx
    exact FetchRes.noConfusion hx

/-- C9 amended.  For a pager whose slot array has its full
`TABLE_MAX_PAGES = 100` slots: both fetchers fail fatally exactly when
`page_num > 100`; every `page_num < 100` is within the bounds of the slot
array and returns a page; and `page_num = 100` passes the bounds check but
accesses one slot past the end of the array (undefined behaviour). -/
theorem pager_bounds_spec (pg : PagerL) (page_num : Nat)
    (hlen : pg.cache.length = TABLE_MAX_PAGES) :
    (pg.get_page_view page_num = FetchRes.fatal ↔ page_num > TABLE_MAX_PAGES) ∧
    (pg.get_page page_num = FetchRes.fatal ↔ page_num > TABLE_MAX_PAGES) ∧
    (page_num < TABLE_MAX_PAGES →
       (∃ p pg2, pg.get_page_view page_num = FetchRes.ok (p, pg2)) ∧
       (∃ p pg2, pg.get_page page_num = FetchRes.ok (p, pg2))) ∧
    (page_num = TABLE_MAX_PAGES →
       pg.get_page_view page_num = FetchRes.ub ∧
       pg.get_page page_num = FetchRes.ub) := by
  by_cases hgt : page_num > TABLE_MAX_PAGES
  · have h1 : pg.get_page_view page_num = FetchRes.fatal := by
      unfold PagerL.get_page_view
      rw [if_pos hgt]
    have h2 : pg.get_page page_num = FetchRes.fatal := by
      unfold PagerL.get_page
      rw [if_pos hgt]
    refine ⟨⟨fun _ => hgt, fun _ => h1⟩, ⟨fun _ => hgt, fun _ => h2⟩, ?_, ?_⟩
    · intro hlt
      exact absurd hlt (by omega)
    · intro heq
      exact absurd heq (by omega)
  · refine ⟨?_, ?_, ?_, ?_⟩
    · constructor
      · intro hf
        exfalso
        unfold PagerL.get_page_view at hf
        rw [if_neg hgt] at hf
        by_cases hb : page_num < pg.cache.length
        · rw [dif_pos hb] at hf
          split at hf <;> exact FetchRes.noConfusion hf
        · rw [dif_neg hb] at hf
          exact FetchRes.noConfusion hf
      · intro hx
        exact absurd hx hgt
    · constructor
      · intro hf
        exfalso
        unfold PagerL.get_page at hf
        rw [if_neg hgt] at hf
        by_cases hb : page_num < pg.cache.length
        · rw [dif_pos hb] at hf
          split at hf <;> exact FetchRes.noConfusion hf
        · rw [dif_neg hb] at hf
          exact FetchRes.noConfusion hf
      · intro hx
        exact absurd hx hgt
    · intro hlt
      have hb : page_num < pg.cache.length := by omega
      constructor
      · unfold PagerL.get_page_view
        rw [if_neg hgt, dif_pos hb]
        cases hc : pg.cache.get ⟨page_num, hb⟩ with
        | some q => exact ⟨_, _, rfl⟩
        | none => exact ⟨_, _, rfl⟩
      · unfold PagerL.get_page
        rw [if_neg hgt, dif_pos hb]
        cases hc : pg.cache.get ⟨page_num, hb⟩ with
        | some q => exact ⟨_, _, rfl⟩
        | none => exact ⟨_, _, rfl⟩
    · intro heq
      have hb : ¬ page_num < pg.cache.length := by omega
      constructor
      · unfold PagerL.get_page_view
        rw [if_neg hgt, dif_neg hb]
      · unfold PagerL.get_page
        rw [if_neg hgt, dif_neg hb]

/-- Witness for the amended C9 theorem on a fresh pager. -/
theorem pager_bounds_spec_witness :
    P8.cache.length = TABLE_MAX_PAGES ∧
    ((P8.get_page_view 5 = FetchRes.fatal ↔ 5 > TABLE_MAX_PAGES) ∧
     (P8.get_page 5 = FetchRes.fatal ↔ 5 > TABLE_MAX_PAGES) ∧
     (5 < TABLE_MAX_PAGES →
        (∃ p pg2, P8.get_page_view 5 = FetchRes.ok (p, pg2)) ∧
        (∃ p pg2, P8.get_page 5 = FetchRes.ok (p, pg2))) ∧
     (5 = TABLE_MAX_PAGES →
        P8.get_page_view 5 = FetchRes.ub ∧
        P8.get_page 5 = FetchRes.ub)) :=
  ⟨rfl, pager_bounds_spec P8 5 rfl⟩
